import Mathlib

/-!
Verification of the twister HTTP server core: a shallow embedding of the
connection state machine (`server/server.go`), the request/header parser,
the pattern router (`web` package) and the WebSocket handshake/framing
layer, together with proofs of the frozen specification claims.

Go maps from string to string-slice (`web.StringsMap`) are embedded as
association lists with unique keys; Go byte slices are embedded as
`List Nat` (wire bytes) or `List Char` (header text, ASCII); fallible Go
functions returning `os.Error` are embedded with `Option`/`Except`.
-/

namespace Twister

/-! ## StringsMap (web.StringsMap, from web/web.go) -/

/-- `web.StringsMap` embedded as an association list with unique keys. -/
abbrev StringsMap := List (String × List String)

/-- Raw map indexing `m[key]` (second component of the Go comma-ok form). -/
def smFind : StringsMap → String → Option (List String)
  | [], _ => none
  | (k, vs) :: rest, key => if k = key then some vs else smFind rest key

/-- `StringsMap.Get`: first value for the key, `none` if absent or empty. -/
def smGet (m : StringsMap) (key : String) : Option String :=
  match smFind m key with
  | some (v :: _) => some v
  | _ => none

/-- `StringsMap.GetDef`: first value for the key, or `def` if absent/empty. -/
def smGetDef (m : StringsMap) (key : String) (dflt : String) : String :=
  match smFind m key with
  | some (v :: _) => v
  | _ => dflt

/-- `StringsMap.Append`: push a value onto the slice for the key. -/
def smAppend : StringsMap → String → String → StringsMap
  | [], key, v => [(key, [v])]
  | (k, vs) :: rest, key, v =>
    if k = key then (k, vs ++ [v]) :: rest else (k, vs) :: smAppend rest key v

/-- `StringsMap.Set`: replace all values for the key with a single value. -/
def smSet : StringsMap → String → String → StringsMap
  | [], key, v => [(key, [v])]
  | (k, vs) :: rest, key, v =>
    if k = key then (k, [v]) :: rest else (k, vs) :: smSet rest key v

/-- Go map entry deletion (`m[key] = nil, false`). -/
def smErase : StringsMap → String → StringsMap
  | [], _ => []
  | (k, vs) :: rest, key =>
    if k = key then smErase rest key else (k, vs) :: smErase rest key

/-! ## RFC 2616 octet classes (from the `web` package `init`) -/

/-- `web.IsSpaceByte`: membership in `" \t\r\n"`. -/
def IsSpaceByte (c : Char) : Bool :=
  c = ' ' || c = '\t' || c = '\r' || c = '\n'

/-- A US-ASCII control character: octets 0-31 and DEL (127). -/
def isCtlChar (c : Char) : Bool :=
  c.toNat ≤ 31 || c.toNat = 127

/-- RFC 2616 separator characters, as enumerated in the `web` package. -/
def isSeparatorChar (c : Char) : Bool :=
  (" \t\"(),/:;<=>?@[]\\\x7b\x7d".data.contains c)

/-- `web.IsTokenByte`: an ASCII char that is neither control nor separator. -/
def IsTokenByte (c : Char) : Bool :=
  c.toNat ≤ 127 && !isCtlChar c && !isSeparatorChar c

/-- `skipBytes`: length of the longest prefix satisfying `f`. -/
def skipBytes : List Char → (Char → Bool) → Nat
  | [], _ => 0
  | c :: rest, f => if f c then skipBytes rest f + 1 else 0

/-- `trimWSLeft`: drop leading RFC 2616 space characters. -/
def trimWSLeft : List Char → List Char
  | [] => []
  | c :: rest => if IsSpaceByte c then trimWSLeft rest else c :: rest

/-- `trimWSRight`: drop trailing RFC 2616 space characters. -/
def trimWSRight (p : List Char) : List Char :=
  (trimWSLeft p.reverse).reverse

/-! ## ReadSlice (bufio.Reader.ReadSlice): read through a delimiter -/

/-- `bufio.Reader.ReadSlice`: the prefix up to and including the first
delimiter, together with the unread remainder; `none` when the delimiter
does not occur (I/O error in the Go code). -/
def readSlice {α : Type} [DecidableEq α] (delim : α) : List α → Option (List α × List α)
  | [] => none
  | c :: rest =>
    if c = delim then some ([c], rest)
    else
      match readSlice delim rest with
      | none => none
      | some (p, r) => some (c :: p, r)

theorem readSlice_append {α : Type} [DecidableEq α] (delim : α) :
    ∀ (a b : List α), delim ∉ a →
      readSlice delim (a ++ delim :: b) = some (a ++ [delim], b) := by
  intro a
  induction a with
  | nil => intro b _; simp [readSlice]
  | cons c rest ih =>
    intro b h
    have hc : ¬ c = delim := fun hcd => h (by simp [hcd])
    have hrest : delim ∉ rest := fun hr => h (List.mem_cons_of_mem _ hr)
    simp [readSlice, hc, ih b hrest]

theorem readSlice_rest_length {α : Type} [DecidableEq α] (delim : α) :
    ∀ (s p r : List α), readSlice delim s = some (p, r) → r.length < s.length := by
  intro s
  induction s with
  | nil => intro p r h; simp [readSlice] at h
  | cons c rest ih =>
    intro p r h
    by_cases hc : c = delim
    · simp [readSlice, hc] at h
      simp [← h.2]
    · simp only [readSlice, if_neg hc] at h
      cases hm : readSlice delim rest with
      | none => rw [hm] at h; simp at h
      | some pr =>
        rw [hm] at h
        simp at h
        have hlen := ih pr.1 pr.2 (by rw [hm])
        have : pr.2 = r := h.2
        subst this
        simp only [List.length_cons]
        omega

/-! ## WebSocket text framing (WebSocketConn.Send / Receive) -/

/-- `WebSocketConn.Send`: frame byte 0x00, the payload, then byte 0xFF
(the byte stream produced on the wire after the flush). -/
def wsSend (p : List Nat) : List Nat :=
  0 :: p ++ [0xff]

/-- `WebSocketConn.Receive` over the connection's byte stream: read one
byte which must be 0x00, then read through the 0xFF terminator and return
the bytes before it, together with the unread remainder of the stream. -/
def wsReceive (s : List Nat) : Except String (List Nat × List Nat) :=
  match s with
  | [] => .error "EOF"
  | c :: rest =>
    if c ≠ 0 then .error "twister.websocket: unexpected framing."
    else
      match readSlice 0xff rest with
      | none => .error "EOF"
      | some (p, rest') => .ok (p.dropLast, rest')

/-! ### Claim C9: WebSocket text framing round-trips -/

/-- C9: `Send` writes byte 0x00, the payload, then byte 0xFF; `Receive`
fails with the framing error iff the first byte is not 0x00, returns
exactly the bytes before the first 0xFF terminator, and hence inverts
`Send` on any payload free of 0xFF bytes. -/
theorem ws_send_receive_roundtrip :
    (∀ (p rest : List Nat), 255 ∉ p →
        wsReceive (wsSend p ++ rest) = .ok (p, rest)) ∧
    (∀ (p rest : List Nat), 255 ∉ p →
        wsReceive (0 :: p ++ 255 :: rest) = .ok (p, rest)) ∧
    (∀ (b : Nat) (s : List Nat), b ≠ 0 →
        wsReceive (b :: s) = .error "twister.websocket: unexpected framing.") ∧
    (∀ (s : List Nat),
        wsReceive (0 :: s) ≠ .error "twister.websocket: unexpected framing.") := by
  have hgen : ∀ (p rest : List Nat), 255 ∉ p →
      wsReceive (0 :: p ++ 255 :: rest) = .ok (p, rest) := by
    intro p rest hp
    have h1 : readSlice 255 (p ++ 255 :: rest) = some (p ++ [255], rest) :=
      readSlice_append 255 p rest hp
    simp [wsReceive, h1]
  refine ⟨?_, hgen, ?_, ?_⟩
  · intro p rest hp
    have : wsSend p ++ rest = 0 :: p ++ 255 :: rest := by
      simp [wsSend]
    rw [this]
    exact hgen p rest hp
  · intro b s hb
    simp [wsReceive, hb]
  · intro s
    simp only [wsReceive, ne_eq, not_true_eq_false, if_false]
    cases h : readSlice 255 s with
    | none => simp
    | some pr => simp

/-- Witness for C9 at a concrete payload and stream. -/
theorem ws_send_receive_roundtrip_witness :
    wsReceive (wsSend [104, 105] ++ [0, 255]) = .ok ([104, 105], [0, 255]) ∧
    wsReceive (7 :: [1, 2]) = .error "twister.websocket: unexpected framing." :=
  ⟨ws_send_receive_roundtrip.1 [104, 105] [0, 255] (by decide),
   ws_send_receive_roundtrip.2.2.1 7 [1, 2] (by decide)⟩

/-! ## Protocol constants and small string helpers -/

/-- `web.ProtocolVersion`: major and minor combined for easy comparison. -/
def mkProtocolVersion (major minor : Nat) : Nat :=
  let minor := if minor > 999 then 999 else minor
  major * 1000 + minor

/-- Canonical header name constants used by the server core. -/
def HeaderConnection : String := "Connection"
def HeaderContentLength : String := "Content-Length"
def HeaderContentType : String := "Content-Type"
def HeaderTransferEncoding : String := "Transfer-Encoding"
def HeaderExpect : String := "Expect"

def StatusOK : Nat := 200
def StatusMovedPermanently : Nat := 301
def StatusFound : Nat := 302
def StatusNotModified : Nat := 304
def StatusBadRequest : Nat := 400
def StatusNotFound : Nat := 404
def StatusMethodNotAllowed : Nat := 405

/-- `web.StatusText` (RFC 2616 reason phrases), as an association list. -/
def StatusText : List (Nat × String) :=
  [(100, "Continue"), (101, "Switching Protocols"), (200, "OK"),
   (201, "Created"), (202, "Accepted"), (203, "Non-Authoritative Information"),
   (204, "No Content"), (205, "Reset Content"), (206, "Partial Content"),
   (300, "Multiple Choices"), (301, "Moved Permanently"), (302, "Found"),
   (303, "See Other"), (304, "Not Modified"), (305, "Use Proxy"),
   (307, "Temporary Redirect"), (400, "Bad Request"), (401, "Unauthorized"),
   (402, "Payment Required"), (403, "Forbidden"), (404, "Not Found"),
   (405, "Method Not Allowed"), (406, "Not Acceptable"),
   (407, "Proxy Authentication Required"), (408, "Request Timeout"),
   (409, "Conflict"), (410, "Gone"), (411, "Length Required"),
   (412, "Precondition Failed"), (413, "Request Entity Too Large"),
   (414, "Request URI Too Long"), (415, "Unsupported Media Type"),
   (416, "Requested Range Not Satisfiable"), (417, "Expectation Failed"),
   (500, "Internal Server Error"), (501, "Not Implemented"),
   (502, "Bad Gateway"), (503, "Service Unavailable"),
   (504, "Gateway Timeout"), (505, "HTTP Version Not Supported")]

def statusTextLookup (status : Nat) : Option String :=
  (StatusText.find? (fun e => e.1 = status)).map Prod.snd

/-- ASCII lowering (model of `strings.ToLower` on header values, which are
ASCII in HTTP; non-ASCII runes are left unchanged by this model). -/
def asciiLower (s : String) : String :=
  String.mk (s.data.map fun c =>
    if 'A' ≤ c ∧ c ≤ 'Z' then Char.ofNat (c.toNat + 32) else c)

/-- Accumulate decimal digits; `none` on empty or non-digit input. -/
def digitsVal (ds : List Char) : Option Nat :=
  if ds.isEmpty then none
  else
    ds.foldl
      (fun acc c =>
        match acc with
        | none => none
        | some a => if c.isDigit then some (a * 10 + (c.toNat - '0'.toNat)) else none)
      (some 0)

/-- `strconv.Atoi`: optional sign followed by decimal digits. -/
def atoi (s : String) : Option Int :=
  match s.data with
  | '-' :: ds => (digitsVal ds).map (fun n => -(n : Int))
  | '+' :: ds => (digitsVal ds).map (fun n => (n : Int))
  | ds => (digitsVal ds).map (fun n => (n : Int))

/-- One base-16 digit rendered as a lowercase character. -/
def hexDigitChar (d : Nat) : Char :=
  if d < 10 then Char.ofNat ('0'.toNat + d) else Char.ofNat ('a'.toNat + d - 10)

def natToHexCore : Nat → Nat → List Char → List Char
  | 0, _, acc => acc
  | fuel + 1, n, acc =>
    if n / 16 = 0 then hexDigitChar (n % 16) :: acc
    else natToHexCore fuel (n / 16) (hexDigitChar (n % 16) :: acc)

/-- `strconv.Itob(n, 16)`: lowercase hexadecimal rendering (the fuel
argument bounds the digit count; `n` itself always suffices). -/
def natToHex (n : Nat) : String :=
  if n = 0 then "0" else String.mk (natToHexCore n n [])

/-- `cleanHeaderValue`: replace CR and LF bytes with spaces (defense
against response-splitting); the Go fast path for clean strings returns
the same value. -/
def cleanHeaderValue (s : String) : String :=
  String.mk (s.data.map fun c => if c = '\r' || c = '\n' then ' ' else c)

/-- Go string to wire bytes (ASCII). -/
def strBytes (s : String) : List Nat :=
  s.data.map Char.toNat

/-! ## Connection state (struct conn, server/server.go) -/

inductive IOError where
  | invalidState
  | ioFail
  | eof
  deriving DecidableEq, Repr

/-- The per-socket state of `struct conn`, together with an explicit model
of the underlying `net.Conn` (accumulated wire bytes plus an injectable
set of failing write calls) and of the response `bufio.Writer` buffer. -/
structure Conn where
  chunked : Bool := false
  closeAfterResponse : Bool := false
  hijacked : Bool := false
  respondCalled : Bool := false
  requestAvail : Int := 0
  responseAvail : Int := 0
  requestErr : Option IOError := none
  responseErr : Option IOError := none
  write100Continue : Bool := false
  /-- `c.req.ProtocolVersion` of the request being served. -/
  protocolVersion : Nat := 1001
  /-- Bytes the parser's `bufio.Reader` buffered but did not consume. -/
  buffered : List Nat := []
  /-- Contents of the response `bufio.Writer` buffer (`c.bw`). -/
  bwBuf : List Nat := []
  /-- Bytes actually written to `c.netConn`. -/
  out : List Nat := []
  /-- Number of `netConn.Write` calls made so far. -/
  writeCalls : Nat := 0
  /-- Write-call indices at which the socket fails (I/O environment). -/
  failOn : List Nat := []
  deriving DecidableEq, Repr

/-- `net.Conn.Write`: full write on success, error on injected failures. -/
def netWrite (c : Conn) (p : List Nat) : Nat × Option IOError × Conn :=
  if c.writeCalls ∈ c.failOn then
    (0, some .ioFail, { c with writeCalls := c.writeCalls + 1 })
  else
    (p.length, none, { c with out := c.out ++ p, writeCalls := c.writeCalls + 1 })

/-- The response status line written by `conn.Respond`. -/
def renderStatusLine (version status : Nat) : String :=
  let proto := if version ≥ mkProtocolVersion 1 1 then "HTTP/1.1" else "HTTP/1.0"
  let statusString := toString status
  let text :=
    match statusTextLookup status with
    | some t => t
    | none => "status code " ++ statusString
  proto ++ " " ++ statusString ++ " " ++ text ++ "\r\n"

/-- The header block written by `conn.Respond`: one `key: value` line per
value, each value passed through `cleanHeaderValue`. -/
def renderHeaderLines (m : StringsMap) : String :=
  m.foldl
    (fun acc e =>
      e.2.foldl (fun acc v => acc ++ e.1 ++ ": " ++ cleanHeaderValue v ++ "\r\n") acc)
    ""

/-- The complete response head: status line, header lines, blank line. -/
def renderHead (version status : Nat) (m : StringsMap) : List Nat :=
  strBytes (renderStatusLine version status) ++ strBytes (renderHeaderLines m)
    ++ strBytes "\r\n"

/-! ## conn.Respond -/

/-- Result of `conn.Respond`: whether a (non-nil) body writer was
returned, the connection afterwards, and the caller's header map
afterwards (the Go code mutates the map in place; the map returned here
is that same object after the call). -/
structure RespondOut where
  started : Bool
  conn : Conn
  header : StringsMap
  deriving DecidableEq, Repr

/-- The framing-selection block of `conn.Respond`: the unread-body check,
the default chunked choice, the 304 / explicit `Content-Length` /
pre-1.1 priority chain, the close-after-response override and the
`Transfer-Encoding: chunked` advertisement. -/
def respondFraming (c : Conn) (status : Nat) (header : StringsMap) :
    Conn × StringsMap :=
  let c := if c.requestAvail > (0 : Int) then { c with closeAfterResponse := true } else c
  let c := { c with chunked := true, responseAvail := 0 }
  let st :=
    if status = StatusNotModified then
      ({ c with chunked := false },
        smErase (smErase header HeaderContentType) HeaderContentLength)
    else
      match smGet header HeaderContentLength with
      | some s => ({ c with responseAvail := (atoi s).getD 0, chunked := false }, header)
      | none =>
        if c.protocolVersion < mkProtocolVersion 1 1 then
          ({ c with closeAfterResponse := true }, header)
        else (c, header)
  let c := st.1
  let header := st.2
  let st2 :=
    if c.closeAfterResponse then
      ({ c with chunked := false }, smSet header HeaderConnection "close")
    else (c, header)
  let c := st2.1
  let header := st2.2
  let header :=
    if c.chunked then smSet header HeaderTransferEncoding "chunked" else header
  (c, header)

/-- `conn.Respond(status, header)`, translated line by line from
`server/server.go`. When the connection is hijacked or `Respond` was
already called it logs and returns a nil writer, touching neither the
connection nor the caller's header map. -/
def respond (c : Conn) (status : Nat) (header : StringsMap) : RespondOut :=
  if c.hijacked then ⟨false, c, header⟩
  else if c.respondCalled then ⟨false, c, header⟩
  else
    let c := { c with respondCalled := true, requestErr := some .invalidState }
    let header :=
      if (smGet header HeaderTransferEncoding).isSome then
        smErase header HeaderTransferEncoding
      else header
    let fr := respondFraming c status header
    let c := fr.1
    let header := fr.2
    let head := renderHead c.protocolVersion status header
    if c.chunked then
      let w := netWrite c head
      ⟨true, { w.2.2 with responseErr := w.2.1 }, header⟩
    else
      ⟨true, { c with bwBuf := c.bwBuf ++ head }, header⟩

/-! ## conn.Hijack -/

/-- Result of `conn.Hijack`: either `ErrInvalidState` (connection
untouched) or the buffered-but-unconsumed parser bytes together with the
detached connection state. The raw `net.Conn` handle itself is implicit
in the model (its accumulated stream stays in `Conn.out`). -/
inductive HijackResult where
  | err (e : IOError) (c : Conn)
  | ok (buffered : List Nat) (c : Conn)
  deriving DecidableEq, Repr

/-- `conn.Hijack()`: fails with `ErrInvalidState` if `Respond` was already
called; otherwise returns all bytes the parser had buffered but not
consumed and permanently detaches the connection. -/
def hijack (c : Conn) : HijackResult :=
  if c.respondCalled then .err .invalidState c
  else
    .ok c.buffered
      { c with
        hijacked := true
        requestErr := some .invalidState
        responseErr := some .invalidState
        buffered := [] }

/-! ## identityWriter.Write and chunkedWriter.Write -/

/-- `identityWriter.Write`: raw write decrementing `responseAvail`. -/
def identityWrite (c : Conn) (p : List Nat) : Nat × Option IOError × Conn :=
  match c.responseErr with
  | some e => (0, some e, c)
  | none =>
    let w := netWrite c p
    (w.1, w.2.1, { w.2.2 with responseErr := w.2.1,
                              responseAvail := w.2.2.responseAvail - w.1 })

/-- `chunkedWriter.Write`: hex chunk size, CRLF, chunk bytes, CRLF; an
empty buffer writes nothing; the successful return count is 0 (as in the
Go code), and the error of the trailing CRLF write is returned with that
count. -/
def chunkedWrite (c : Conn) (p : List Nat) : Nat × Option IOError × Conn :=
  match c.responseErr with
  | some e => (0, some e, c)
  | none =>
    if p.length = 0 then (0, none, c)
    else
      let w1 := netWrite c (strBytes (natToHex p.length ++ "\r\n"))
      let c := { w1.2.2 with responseErr := w1.2.1 }
      match w1.2.1 with
      | some e => (0, some e, c)
      | none =>
        let w2 := netWrite c p
        let c := { w2.2.2 with responseErr := w2.2.1 }
        match w2.2.1 with
        | some e => (w2.1, some e, c)
        | none =>
          let w3 := netWrite c (strBytes "\r\n")
          let c := { w3.2.2 with responseErr := w3.2.1 }
          (0, w3.2.1, c)

/-! ## conn.finish -/

/-- Flush of the response `bufio.Writer` (`c.bw.Flush()`): the buffered
bytes go through the connection's chunked or identity writer. An empty
buffer flushes nothing. -/
def flushBW (c : Conn) : Conn :=
  if c.bwBuf.isEmpty then c
  else
    let buf := c.bwBuf
    let c := { c with bwBuf := [] }
    if c.chunked then (chunkedWrite c buf).2.2 else (identityWrite c buf).2.2

/-- `conn.finish()`: default 200 response if the handler never responded,
force close on a length mismatch, flush, and in chunked mode write the
terminal zero chunk. -/
def finish (c : Conn) : Conn :=
  let c :=
    if !c.respondCalled then
      (respond c StatusOK [(HeaderContentType, ["text/html charset=utf-8"])]).conn
    else c
  let c := if c.responseAvail ≠ 0 then { c with closeAfterResponse := true } else c
  let c := flushBW c
  let c :=
    if c.chunked then
      let w := netWrite c (strBytes "0\r\n\r\n")
      { w.2.2 with responseErr := w.2.1 }
    else c
  { c with responseErr := if c.responseErr = none then some .invalidState else c.responseErr }

/-! ## conn.prepare: the close-after-response decision -/

/-- The `closeAfterResponse` decision taken eagerly in `conn.prepare`,
as a function of the request's protocol version, header map and
`ContentLength`. -/
def prepareCloseAfterResponse (version : Nat) (header : StringsMap)
    (contentLength : Int) : Bool :=
  let connection := asciiLower (smGetDef header HeaderConnection "")
  if version ≥ mkProtocolVersion 1 1 then connection = "close"
  else if version = mkProtocolVersion 1 0 ∧ contentLength ≥ 0 then
    connection ≠ "keep-alive"
  else true

/-! ## StringsMap lemmas -/

theorem smFind_erase_self (m : StringsMap) (k : String) :
    smFind (smErase m k) k = none := by
  induction m with
  | nil => rfl
  | cons e rest ih =>
    obtain ⟨k', vs⟩ := e
    by_cases h : k' = k
    · simp [smErase, h, ih]
    · simp [smErase, smFind, h, ih]

theorem smFind_erase_ne (m : StringsMap) (k k' : String) (h : k' ≠ k) :
    smFind (smErase m k') k = smFind m k := by
  induction m with
  | nil => rfl
  | cons e rest ih =>
    obtain ⟨k0, vs⟩ := e
    by_cases h0 : k0 = k'
    · subst h0
      simp [smErase, smFind, h, ih]
    · simp [smErase, smFind, h0, ih]

theorem smFind_set_self (m : StringsMap) (k : String) (v : String) :
    smFind (smSet m k v) k = some [v] := by
  induction m with
  | nil => simp [smSet, smFind]
  | cons e rest ih =>
    obtain ⟨k0, vs⟩ := e
    by_cases h0 : k0 = k
    · simp [smSet, smFind, h0]
    · simp [smSet, smFind, h0, ih]

theorem smFind_set_ne (m : StringsMap) (k k' : String) (v : String) (h : k' ≠ k) :
    smFind (smSet m k' v) k = smFind m k := by
  induction m with
  | nil => simp [smSet, smFind, h]
  | cons e rest ih =>
    obtain ⟨k0, vs⟩ := e
    by_cases h0 : k0 = k'
    · subst h0
      simp [smSet, smFind, h, ih]
    · simp [smSet, smFind, h0, ih]

/-! ### Claim C2: the eager close-after-response decision -/

/-- C2: `conn.prepare` decides close-after-response exactly as: version
at least 1.1 closes iff the `Connection` header case-insensitively equals
"close"; version exactly 1.0 with non-negative `ContentLength` closes iff
the `Connection` header is not "keep-alive"; every other case closes. -/
theorem prepareClose_characterization (version : Nat) (header : StringsMap)
    (cl : Int) :
    (version ≥ 1001 →
      (prepareCloseAfterResponse version header cl = true ↔
        asciiLower (smGetDef header HeaderConnection "") = "close")) ∧
    (version = 1000 → cl ≥ 0 →
      (prepareCloseAfterResponse version header cl = true ↔
        asciiLower (smGetDef header HeaderConnection "") ≠ "keep-alive")) ∧
    (¬ version ≥ 1001 → ¬ (version = 1000 ∧ cl ≥ 0) →
      prepareCloseAfterResponse version header cl = true) := by
  have h11 : mkProtocolVersion 1 1 = 1001 := rfl
  have h10 : mkProtocolVersion 1 0 = 1000 := rfl
  refine ⟨?_, ?_, ?_⟩
  · intro hv
    rw [prepareCloseAfterResponse, h11, h10, if_pos hv]
    simp
  · intro hv hcl
    have hlt : ¬ version ≥ 1001 := by omega
    rw [prepareCloseAfterResponse, h11, h10, if_neg hlt, if_pos ⟨hv, hcl⟩]
    simp
  · intro hv hother
    rw [prepareCloseAfterResponse, h11, h10, if_neg hv, if_neg hother]

/-- Witness for C2: HTTP/1.1 with `Connection: cLoSe` closes; HTTP/1.0
with unknown length closes. -/
theorem prepareClose_characterization_witness :
    prepareCloseAfterResponse 1001 [(HeaderConnection, ["cLoSe"])] (-1) = true ∧
    prepareCloseAfterResponse 1000 [] (-1) = true :=
  ⟨((prepareClose_characterization 1001 [(HeaderConnection, ["cLoSe"])] (-1)).1
      (by decide)).mpr (by decide),
   (prepareClose_characterization 1000 [] (-1)).2.2 (by decide) (by decide)⟩

/-! ## Framing lemmas for conn.Respond -/

theorem respondFraming_contentLength (c : Conn) (status : Nat)
    (header : StringsMap) (s : String) (h304 : status ≠ StatusNotModified)
    (hcl : smGet header HeaderContentLength = some s) :
    (respondFraming c status header).1.chunked = false ∧
    (respondFraming c status header).1.responseAvail = (atoi s).getD 0 ∧
    smFind (respondFraming c status header).2 HeaderTransferEncoding =
      smFind header HeaderTransferEncoding := by
  have hne : HeaderConnection ≠ HeaderTransferEncoding := by decide
  by_cases hra : c.requestAvail > (0 : Int) <;>
    by_cases hcar : c.closeAfterResponse <;>
      simp [respondFraming, if_neg h304, hcl, hra, hcar,
        smFind_set_ne _ _ _ _ hne]

theorem respondFraming_chunked (c : Conn) (status : Nat) (header : StringsMap)
    (h304 : status ≠ StatusNotModified)
    (hcl : smGet header HeaderContentLength = none)
    (hver : ¬ c.protocolVersion < mkProtocolVersion 1 1)
    (hcar : c.closeAfterResponse = false) (hra : ¬ c.requestAvail > (0 : Int)) :
    respondFraming c status header =
      ({ c with chunked := true, responseAvail := 0 },
        smSet header HeaderTransferEncoding "chunked") := by
  simp [respondFraming, if_neg h304, hcl, hver, hcar, hra]

theorem respondFraming_304 (c : Conn) (header : StringsMap) :
    (respondFraming c StatusNotModified header).1.chunked = false ∧
    smFind (respondFraming c StatusNotModified header).2 HeaderContentType = none ∧
    smFind (respondFraming c StatusNotModified header).2 HeaderContentLength = none ∧
    (∀ k, k ≠ HeaderContentType → k ≠ HeaderContentLength → k ≠ HeaderConnection →
      smFind (respondFraming c StatusNotModified header).2 k = smFind header k) := by
  have hctcl : HeaderContentLength ≠ HeaderContentType := by decide
  have hconct : HeaderConnection ≠ HeaderContentType := by decide
  have hconcl : HeaderConnection ≠ HeaderContentLength := by decide
  by_cases hra : c.requestAvail > (0 : Int) <;>
    by_cases hcar : c.closeAfterResponse <;>
      refine ⟨by simp [respondFraming, hra, hcar], ?_, ?_, ?_⟩ <;>
        simp [respondFraming, hra, hcar, smFind_set_ne _ _ _ _ hconct,
          smFind_set_ne _ _ _ _ hconcl, smFind_erase_ne _ _ _ hctcl,
          smFind_erase_self] <;>
          intro k hct hcl hcon <;>
            simp [smFind_set_ne _ _ _ _ (Ne.symm hcon),
              smFind_erase_ne _ _ _ (Ne.symm hcl),
              smFind_erase_ne _ _ _ (Ne.symm hct)]

theorem respondFraming_preserves (c : Conn) (status : Nat) (header : StringsMap) :
    (respondFraming c status header).1.bwBuf = c.bwBuf ∧
    (respondFraming c status header).1.out = c.out ∧
    (respondFraming c status header).1.protocolVersion = c.protocolVersion ∧
    (respondFraming c status header).1.respondCalled = c.respondCalled ∧
    (respondFraming c status header).1.failOn = c.failOn ∧
    (respondFraming c status header).1.writeCalls = c.writeCalls ∧
    (respondFraming c status header).1.responseErr = c.responseErr ∧
    (respondFraming c status header).1.buffered = c.buffered ∧
    (respondFraming c status header).1.requestErr = c.requestErr := by
  by_cases h304 : status = StatusNotModified <;>
    cases hcl : smGet header HeaderContentLength <;>
      by_cases hra : c.requestAvail > (0 : Int) <;>
        by_cases hver : c.protocolVersion < mkProtocolVersion 1 1 <;>
          simp [respondFraming, h304, hcl, hra, hver] <;>
            split_ifs <;> simp

/-- Stripping a caller-supplied `Transfer-Encoding` leaves other keys alone. -/
theorem smFind_strip_ne (header : StringsMap) (k : String)
    (hk : k ≠ HeaderTransferEncoding) :
    smFind
      (if (smGet header HeaderTransferEncoding).isSome then
        smErase header HeaderTransferEncoding
      else header) k = smFind header k := by
  by_cases hte : (smGet header HeaderTransferEncoding).isSome <;>
    simp [hte, smFind_erase_ne _ _ _ (Ne.symm hk)]

/-! ### Claim C10: Respond(304) and the caller's header map -/

/-- C10 (amended): `Respond(304, header)` deletes the `Content-Type` and
`Content-Length` entries from the caller's map (the map returned in
`RespondOut.header` is the caller's object after the in-place mutation),
so a 304 response never carries a `Content-Type`; every other
caller-supplied entry except `Transfer-Encoding` (always stripped) and
`Connection` (overwritten with "close" when close-after-response is set)
survives unchanged, and the written head applies only the CR/LF
sanitization of `cleanHeaderValue` to the surviving values. -/
theorem respond_304_header_effect (c : Conn) (header : StringsMap)
    (hh : c.hijacked = false) (hr : c.respondCalled = false) :
    (respond c StatusNotModified header).started = true ∧
    smFind (respond c StatusNotModified header).header HeaderContentType = none ∧
    smFind (respond c StatusNotModified header).header HeaderContentLength = none ∧
    (∀ k, k ≠ HeaderContentType → k ≠ HeaderContentLength →
      k ≠ HeaderTransferEncoding → k ≠ HeaderConnection →
      smFind (respond c StatusNotModified header).header k = smFind header k) ∧
    (respond c StatusNotModified header).conn.chunked = false ∧
    (respond c StatusNotModified header).conn.bwBuf =
      c.bwBuf ++ renderHead c.protocolVersion StatusNotModified
        (respond c StatusNotModified header).header := by
  have hc1 :
      ({ c with respondCalled := true, requestErr := some .invalidState } : Conn).hijacked
        = c.hijacked := rfl
  obtain ⟨hchu, hctn, hcln, hoth⟩ :=
    respondFraming_304 { c with respondCalled := true, requestErr := some .invalidState }
      (if (smGet header HeaderTransferEncoding).isSome then
        smErase header HeaderTransferEncoding
      else header)
  obtain ⟨hbw, _, hpv, _⟩ :=
    respondFraming_preserves
      { c with respondCalled := true, requestErr := some .invalidState }
      StatusNotModified
      (if (smGet header HeaderTransferEncoding).isSome then
        smErase header HeaderTransferEncoding
      else header)
  have hresp : respond c StatusNotModified header =
      ⟨true,
        { (respondFraming
            { c with respondCalled := true, requestErr := some .invalidState }
            StatusNotModified
            (if (smGet header HeaderTransferEncoding).isSome then
              smErase header HeaderTransferEncoding
            else header)).1 with
          bwBuf := (respondFraming
            { c with respondCalled := true, requestErr := some .invalidState }
            StatusNotModified
            (if (smGet header HeaderTransferEncoding).isSome then
              smErase header HeaderTransferEncoding
            else header)).1.bwBuf ++
            renderHead (respondFraming
              { c with respondCalled := true, requestErr := some .invalidState }
              StatusNotModified
              (if (smGet header HeaderTransferEncoding).isSome then
                smErase header HeaderTransferEncoding
              else header)).1.protocolVersion StatusNotModified
              (respondFraming
                { c with respondCalled := true, requestErr := some .invalidState }
                StatusNotModified
                (if (smGet header HeaderTransferEncoding).isSome then
                  smErase header HeaderTransferEncoding
                else header)).2 },
        (respondFraming
          { c with respondCalled := true, requestErr := some .invalidState }
          StatusNotModified
          (if (smGet header HeaderTransferEncoding).isSome then
            smErase header HeaderTransferEncoding
          else header)).2⟩ := by
    rw [respond]
    rw [if_neg (by rw [hc1, hh]; exact Bool.false_ne_true)]
    rw [if_neg (by show ¬ c.respondCalled = true; rw [hr]; exact Bool.false_ne_true)]
    simp only [hchu, Bool.false_eq_true, if_false]
  refine ⟨by rw [hresp], by rw [hresp]; exact hctn, by rw [hresp]; exact hcln,
    ?_, by rw [hresp]; exact hchu, by rw [hresp]; simp [hbw, hpv]⟩
  intro k hct hcl hte hcon
  rw [hresp]
  show smFind _ k = smFind header k
  rw [hoth k hct hcl hcon, smFind_strip_ne header k hte]

/-- C10 counterexample to the claim as stated: with close-after-response
already decided, a caller-supplied `Connection: keep-alive` entry is not
written unchanged but overwritten with `close`. -/
theorem respond_304_connection_overwritten :
    (respond { closeAfterResponse := true : Conn } StatusNotModified
      [(HeaderConnection, ["keep-alive"])]).header =
      [(HeaderConnection, ["close"])] := by
  decide

/-- Witness for C10 at a concrete connection and header map. -/
theorem respond_304_header_effect_witness :
    smFind (respond { : Conn } StatusNotModified
      [(HeaderContentType, ["text/html"]), ("X-Custom", ["v"])]).header
      HeaderContentType = none ∧
    smFind (respond { : Conn } StatusNotModified
      [(HeaderContentType, ["text/html"]), ("X-Custom", ["v"])]).header
      "X-Custom" = some ["v"] := by
  refine ⟨(respond_304_header_effect { : Conn }
    [(HeaderContentType, ["text/html"]), ("X-Custom", ["v"])] rfl rfl).2.1, ?_⟩
  rw [(respond_304_header_effect { : Conn }
    [(HeaderContentType, ["text/html"]), ("X-Custom", ["v"])] rfl rfl).2.2.2.1
    "X-Custom" (by decide) (by decide) (by decide) (by decide)]
  decide

/-- `conn.Respond` with the one-shot guards discharged. -/
theorem respond_eq (c : Conn) (status : Nat) (header : StringsMap)
    (hh : c.hijacked = false) (hr : c.respondCalled = false) :
    respond c status header =
      (fun fr : Conn × StringsMap =>
        if fr.1.chunked then
          (fun w => (⟨true, { w.2.2 with responseErr := w.2.1 }, fr.2⟩ : RespondOut))
            (netWrite fr.1 (renderHead fr.1.protocolVersion status fr.2))
        else
          ⟨true, { fr.1 with
            bwBuf := fr.1.bwBuf ++ renderHead fr.1.protocolVersion status fr.2 }, fr.2⟩)
        (respondFraming
          { c with respondCalled := true, requestErr := some .invalidState }
          status
          (if (smGet header HeaderTransferEncoding).isSome then
            smErase header HeaderTransferEncoding
          else header)) := by
  rw [respond]
  rw [if_neg (by rw [hh]; exact Bool.false_ne_true)]
  rw [if_neg (by rw [hr]; exact Bool.false_ne_true)]

/-- The `Transfer-Encoding` entry of the header map after the framing
block: exactly `chunked` when chunked framing was selected, otherwise
whatever the (already stripped) input had. -/
theorem respondFraming_te (c : Conn) (status : Nat) (header : StringsMap) :
    smFind (respondFraming c status header).2 HeaderTransferEncoding =
      if (respondFraming c status header).1.chunked then some ["chunked"]
      else smFind header HeaderTransferEncoding := by
  have hctte : HeaderContentType ≠ HeaderTransferEncoding := by decide
  have hclte : HeaderContentLength ≠ HeaderTransferEncoding := by decide
  have hconte : HeaderConnection ≠ HeaderTransferEncoding := by decide
  by_cases h304 : status = StatusNotModified <;>
    cases hcl : smGet header HeaderContentLength <;>
      by_cases hra : c.requestAvail > (0 : Int) <;>
        by_cases hver : c.protocolVersion < mkProtocolVersion 1 1 <;>
          simp [respondFraming, h304, hcl, hra, hver] <;>
            (try split_ifs) <;>
              simp [smFind_set_self, smFind_set_ne _ _ _ _ hconte,
                smFind_erase_ne _ _ _ hclte, smFind_erase_ne _ _ _ hctte]

/-- After the strip stage, `Get` of `Transfer-Encoding` is always `none`. -/
theorem smGet_strip_te (header : StringsMap) :
    smGet
      (if (smGet header HeaderTransferEncoding).isSome then
        smErase header HeaderTransferEncoding
      else header) HeaderTransferEncoding = none := by
  by_cases hte : (smGet header HeaderTransferEncoding).isSome = true
  · rw [if_pos hte, smGet, smFind_erase_self]
  · rw [if_neg hte]
    cases h : smGet header HeaderTransferEncoding with
    | none => rfl
    | some v => rw [h] at hte; simp at hte

theorem netWrite_fields (c : Conn) (p : List Nat) :
    (netWrite c p).2.2.chunked = c.chunked ∧
    (netWrite c p).2.2.bwBuf = c.bwBuf ∧
    (netWrite c p).2.2.responseAvail = c.responseAvail ∧
    (netWrite c p).2.2.respondCalled = c.respondCalled ∧
    (netWrite c p).2.2.failOn = c.failOn := by
  unfold netWrite
  split_ifs <;> simp

/-! ### Claim C1: framing selection in conn.Respond -/

/-- C1 (amended): on a respondable connection, an explicit
`Content-Length` (with status other than 304) selects identity framing
with the parsed length and no `Transfer-Encoding` is written; an
HTTP/1.1-or-later request with no `Content-Length`, status other than
304, close-after-response not already decided and no unread request body
selects chunked framing advertised via `Transfer-Encoding: chunked`, and
`conn.finish` terminates the body with the zero chunk; a caller-supplied
`Transfer-Encoding` is always stripped — the written map's entry is
exactly `chunked` when chunked framing was selected and absent
otherwise. -/
theorem respond_framing_selection (c : Conn) (status : Nat)
    (header : StringsMap) (hh : c.hijacked = false)
    (hr : c.respondCalled = false) :
    (∀ s len, status ≠ StatusNotModified →
      smGet header HeaderContentLength = some s → atoi s = some len →
      (respond c status header).conn.chunked = false ∧
      (respond c status header).conn.responseAvail = len ∧
      smGet (respond c status header).header HeaderTransferEncoding = none) ∧
    (status ≠ StatusNotModified →
      smGet header HeaderContentLength = none →
      c.protocolVersion ≥ mkProtocolVersion 1 1 →
      c.closeAfterResponse = false → c.requestAvail ≤ 0 →
      (respond c status header).conn.chunked = true ∧
      smFind (respond c status header).header HeaderTransferEncoding =
        some ["chunked"] ∧
      (c.bwBuf = [] → c.failOn = [] →
        (finish (respond c status header).conn).out =
          (respond c status header).conn.out ++ strBytes "0\r\n\r\n")) ∧
    (smGet (respond c status header).header HeaderTransferEncoding =
      if (respond c status header).conn.chunked then some "chunked" else none) := by
  have hclte : HeaderContentLength ≠ HeaderTransferEncoding := by decide
  have hstrip_get : ∀ k, k ≠ HeaderTransferEncoding →
      smGet
        (if (smGet header HeaderTransferEncoding).isSome then
          smErase header HeaderTransferEncoding
        else header) k = smGet header k := by
    intro k hk
    have hcg : ∀ (m m' : StringsMap) (k' : String),
        smFind m k' = smFind m' k' → smGet m k' = smGet m' k' := by
      intro m m' k' h
      rw [smGet, smGet, h]
    exact hcg _ _ _ (smFind_strip_ne header k hk)
  rw [respond_eq c status header hh hr]
  set c1 : Conn := { c with respondCalled := true, requestErr := some .invalidState }
    with hc1def
  set header1 : StringsMap :=
    (if (smGet header HeaderTransferEncoding).isSome then
      smErase header HeaderTransferEncoding
    else header) with hh1def
  set fr := respondFraming c1 status header1 with hfrdef
  have hte := respondFraming_te c1 status header1
  rw [← hfrdef] at hte
  -- the final Transfer-Encoding entry, in both framing regimes
  have hte_final : smGet fr.2 HeaderTransferEncoding =
      if fr.1.chunked then some "chunked" else none := by
    cases hchu : fr.1.chunked with
    | true =>
      rw [hchu] at hte
      simp only [if_true] at hte ⊢
      rw [smGet, hte]
    | false =>
      rw [hchu] at hte
      simp only [if_false, Bool.false_eq_true] at hte ⊢
      rw [smGet, hte]
      have := smGet_strip_te header
      rw [← hh1def] at this
      rw [smGet] at this
      exact this
  refine ⟨?_, ?_, ?_⟩
  · intro s len h304 hcl hatoi
    have hcl1 : smGet header1 HeaderContentLength = some s := by
      rw [hh1def, hstrip_get HeaderContentLength hclte, hcl]
    obtain ⟨hchu, hra2, _⟩ :=
      respondFraming_contentLength c1 status header1 s h304 hcl1
    rw [← hfrdef] at hchu hra2
    simp only [hchu, Bool.false_eq_true, if_false]
    refine ⟨trivial, ?_, ?_⟩
    · show fr.1.responseAvail = len
      rw [hra2, hatoi]
      rfl
    · show smGet fr.2 HeaderTransferEncoding = none
      rw [hte_final, hchu]
      simp
  · intro h304 hcl hver hcar hra
    have hcl1 : smGet header1 HeaderContentLength = none := by
      rw [hh1def, hstrip_get HeaderContentLength hclte, hcl]
    have hfr : fr = ({ c1 with chunked := true, responseAvail := 0 },
        smSet header1 HeaderTransferEncoding "chunked") := by
      rw [hfrdef]
      exact respondFraming_chunked c1 status header1 h304 hcl1
        (by show ¬ c.protocolVersion < mkProtocolVersion 1 1; omega)
        (by show c.closeAfterResponse = false; exact hcar)
        (by show ¬ c.requestAvail > (0 : Int); omega)
    rw [hfr]
    simp only [if_true]
    refine ⟨?_, ?_, ?_⟩
    · show (netWrite _ _).2.2.chunked = true
      rw [(netWrite_fields _ _).1]
    · exact smFind_set_self header1 HeaderTransferEncoding "chunked"
    · intro hb hf
      show (finish { (netWrite _ _).2.2 with responseErr := _ }).out = _
      rw [show ({ c1 with chunked := true, responseAvail := 0 } : Conn).failOn
        = c.failOn from rfl] at *
      simp [netWrite, finish, flushBW, hb, hf]
  · cases hchu : fr.1.chunked with
    | true =>
      simp only [hchu, if_true]
      have h1 : ((netWrite fr.1 (renderHead fr.1.protocolVersion status fr.2)).2.2).chunked
          = fr.1.chunked := (netWrite_fields _ _).1
      simp only [h1, hchu, if_true]
      rw [hte_final, hchu]
      simp
    | false =>
      simp only [hchu, Bool.false_eq_true, if_false]
      rw [hte_final, hchu]
      simp

/-- C1 counterexample to the claim as stated: an HTTP/1.1 request whose
`Connection: close` header set close-after-response in `prepare` gets an
unchunked response with no `Transfer-Encoding` header, although the
request is HTTP/1.1, no `Content-Length` was supplied and the status is
not 304. -/
theorem respond_chunked_overridden_by_close :
    prepareCloseAfterResponse 1001 [(HeaderConnection, ["close"])] (-1) = true ∧
    (respond { protocolVersion := 1001, closeAfterResponse := true : Conn }
      200 []).conn.chunked = false ∧
    smFind (respond { protocolVersion := 1001, closeAfterResponse := true : Conn }
      200 []).header HeaderTransferEncoding = none := by
  refine ⟨by decide, by decide, by decide⟩

/-- Witness for C1 at concrete connections and headers. -/
theorem respond_framing_selection_witness :
    ((respond { protocolVersion := 1001 : Conn } 200
        [(HeaderContentLength, ["5"])]).conn.chunked = false ∧
      (respond { protocolVersion := 1001 : Conn } 200
        [(HeaderContentLength, ["5"])]).conn.responseAvail = 5) ∧
    ((respond { protocolVersion := 1001 : Conn } 200 []).conn.chunked = true ∧
      (finish (respond { protocolVersion := 1001 : Conn } 200 []).conn).out =
        (respond { protocolVersion := 1001 : Conn } 200 []).conn.out ++
          strBytes "0\r\n\r\n") := by
  have h := respond_framing_selection { protocolVersion := 1001 : Conn } 200
    [(HeaderContentLength, ["5"])] rfl rfl
  have h2 := respond_framing_selection { protocolVersion := 1001 : Conn } 200 [] rfl rfl
  obtain ⟨ha, hb, -⟩ := h.1 "5" 5 (by decide) (by decide) (by decide)
  obtain ⟨hc, -, hd⟩ := h2.2.1 (by decide) (by decide) (by decide) rfl (by decide)
  exact ⟨⟨ha, hb⟩, ⟨hc, hd rfl rfl⟩⟩

/-! ### Claim C7: Respond and Hijack are mutually exclusive one-shots -/

/-- C7 (amended): `Respond` returns no writer and leaves the connection
and socket untouched when the connection is hijacked or `Respond` was
already called; `Hijack` returns `ErrInvalidState` leaving the connection
state unchanged when `Respond` was already called; a successful `Hijack`
returns exactly the bytes the parser had buffered but not consumed and
marks the connection hijacked. -/
theorem respond_hijack_exclusive :
    (∀ (c : Conn) (status : Nat) (header : StringsMap), c.hijacked = true →
      respond c status header = ⟨false, c, header⟩) ∧
    (∀ (c : Conn) (status : Nat) (header : StringsMap), c.respondCalled = true →
      respond c status header = ⟨false, c, header⟩) ∧
    (∀ c : Conn, c.respondCalled = true → hijack c = .err .invalidState c) ∧
    (∀ c : Conn, c.respondCalled = false →
      ∃ c' : Conn, hijack c = .ok c.buffered c' ∧ c'.hijacked = true) := by
  refine ⟨?_, ?_, ?_, ?_⟩
  · intro c status header h
    simp [respond, h]
  · intro c status header h
    simp [respond, h]
  · intro c h
    simp [hijack, h]
  · intro c h
    refine
      ⟨{ c with
          hijacked := true
          requestErr := some .invalidState
          responseErr := some .invalidState
          buffered := [] }, ?_, rfl⟩
    simp [hijack, h]

/-- C7 counterexample to the claim as stated: after `Respond` has been
called, `Hijack` fails with the invalid-state error but the connection is
not usable for a later `Respond` — that later call returns no writer. -/
theorem hijack_fail_respond_unusable :
    hijack { respondCalled := true : Conn } =
      .err .invalidState { respondCalled := true : Conn } ∧
    (respond { respondCalled := true : Conn } 200 []).started = false :=
  ⟨rfl, rfl⟩

/-- Witness for C7 at concrete connections. -/
theorem respond_hijack_exclusive_witness :
    respond { hijacked := true : Conn } 200 [] =
      ⟨false, { hijacked := true : Conn }, []⟩ ∧
    ∃ c' : Conn,
      hijack { buffered := [7, 8] : Conn } = .ok [7, 8] c' ∧ c'.hijacked = true :=
  ⟨respond_hijack_exclusive.1 { hijacked := true : Conn } 200 [] rfl,
   respond_hijack_exclusive.2.2.2 { buffered := [7, 8] : Conn } rfl⟩

/-! ### Claim C8: the chunked writer's frame and return values -/

theorem natToHexCore_head :
    ∀ (fuel n : Nat) (acc : List Char), 1 ≤ n → n ≤ fuel →
      ∃ d rest, natToHexCore fuel n acc = hexDigitChar d :: rest ∧
        1 ≤ d ∧ d ≤ 15 := by
  intro fuel
  induction fuel with
  | zero => intro n acc h1 h2; omega
  | succ fuel ih =>
    intro n acc h1 h2
    rw [natToHexCore]
    by_cases hq : n / 16 = 0
    · rw [if_pos hq]
      exact ⟨n % 16, acc, rfl, by omega, by omega⟩
    · rw [if_neg hq]
      exact ih (n / 16) _ (by omega) (by omega)

/-- The chunk-size line of a nonempty chunk never begins with the byte
`'0'`: the terminal zero chunk can only come from `conn.finish`. -/
theorem natToHex_head_ne_zero (n : Nat) (hn : 1 ≤ n) :
    (strBytes (natToHex n)).head? ≠ some ('0'.toNat) := by
  obtain ⟨d, rest, heq, hd1, hd2⟩ := natToHexCore_head n n [] hn (Nat.le_refl n)
  have hne : ∀ d' < 16, 1 ≤ d' → (hexDigitChar d').toNat ≠ '0'.toNat := by decide
  rw [natToHex, if_neg (by omega), strBytes]
  show ((String.mk (natToHexCore n n [])).data.map Char.toNat).head? ≠ some '0'.toNat
  rw [show (String.mk (natToHexCore n n [])).data = natToHexCore n n [] from rfl, heq]
  simp only [List.map_cons, List.head?_cons, ne_eq, Option.some.injEq]
  exact hne d (by omega) hd1

/-- C8: a nonempty write with no prior sticky error emits exactly the hex
length, CRLF, the payload, CRLF, returning the incorrect count 0; an
empty write emits nothing; an error on the trailing CRLF write is
returned with count 0 after the payload went out; a chunk frame never
starts with the byte `'0'`; and the terminal zero chunk is written by
`conn.finish` at cycle completion. -/
theorem chunked_writer_frame :
    (∀ (c : Conn) (p : List Nat), c.responseErr = none → c.failOn = [] →
      p ≠ [] →
      chunkedWrite c p =
        (0, none,
          { c with
            out := c.out ++ strBytes (natToHex p.length ++ "\r\n") ++ p ++
              strBytes "\r\n"
            writeCalls := c.writeCalls + 3
            responseErr := none })) ∧
    (∀ c : Conn, c.responseErr = none → chunkedWrite c [] = (0, none, c)) ∧
    (∀ (c : Conn) (p : List Nat), c.responseErr = none →
      c.failOn = [c.writeCalls + 2] → p ≠ [] →
      (chunkedWrite c p).1 = 0 ∧
      (chunkedWrite c p).2.1 = some .ioFail ∧
      (chunkedWrite c p).2.2.out =
        c.out ++ strBytes (natToHex p.length ++ "\r\n") ++ p) ∧
    (∀ p : List Nat, p ≠ [] →
      (strBytes (natToHex p.length)).head? ≠ some ('0'.toNat)) ∧
    (∀ c : Conn, c.respondCalled = true → c.responseAvail = 0 →
      c.chunked = true → c.bwBuf = [] → c.failOn = [] →
      (finish c).out = c.out ++ strBytes "0\r\n\r\n") := by
  refine ⟨?_, ?_, ?_, ?_, ?_⟩
  · intro c p herr hf hp
    have hlen : ¬ p.length = 0 := by
      intro h
      exact hp (List.length_eq_zero.mp h)
    simp [chunkedWrite, netWrite, herr, hf, hlen]
  · intro c herr
    simp [chunkedWrite, herr]
  · intro c p herr hfail hp
    have hlen : ¬ p.length = 0 := by
      intro h
      exact hp (List.length_eq_zero.mp h)
    have hne0 : c.writeCalls ≠ c.writeCalls + 2 := by omega
    have hne1 : c.writeCalls + 1 ≠ c.writeCalls + 2 := by omega
    refine ⟨?_, ?_, ?_⟩ <;>
      simp [chunkedWrite, netWrite, herr, hfail, hlen, hne0, hne1]
  · intro p hp
    exact natToHex_head_ne_zero p.length (by
      cases p with
      | nil => exact absurd rfl hp
      | cons a l => simp)
  · intro c hrc hra hch hb hf
    simp [finish, flushBW, netWrite, hrc, hra, hch, hb, hf]

/-- Witness for C8 on a concrete connection and payload. -/
theorem chunked_writer_frame_witness :
    chunkedWrite { : Conn } [104, 105] =
      (0, none,
        { out := strBytes "2\r\n" ++ [104, 105] ++ strBytes "\r\n",
          writeCalls := 3 : Conn }) ∧
    chunkedWrite { : Conn } [] = (0, none, { : Conn }) ∧
    (finish { respondCalled := true, chunked := true : Conn }).out =
      strBytes "0\r\n\r\n" := by
  refine ⟨?_, chunked_writer_frame.2.1 { : Conn } rfl, ?_⟩
  · have h := chunked_writer_frame.1 { : Conn } [104, 105] rfl rfl (by decide)
    rw [h]
    decide
  · have h := chunked_writer_frame.2.2.2.2 { respondCalled := true, chunked := true : Conn }
      rfl rfl rfl rfl rfl
    rw [h]
    decide

/-! ## Header name canonicalization (web.HeaderNameBytes) -/

/-- Uppercase an ASCII lowercase letter (`c + 'A' - 'a'`). -/
def upperAscii (c : Char) : Char :=
  if 'a' ≤ c ∧ c ≤ 'z' then Char.ofNat (c.toNat - 32) else c

/-- Lowercase an ASCII uppercase letter (`c + 'a' - 'A'`). -/
def lowerAscii (c : Char) : Char :=
  if 'A' ≤ c ∧ c ≤ 'Z' then Char.ofNat (c.toNat + 32) else c

/-- The `HeaderNameBytes` loop: the `upper` flag holds at the start and
after every `'-'`. -/
def headerNameGo : Bool → List Char → List Char
  | _, [] => []
  | upper, c :: cs =>
    (if upper then upperAscii c else lowerAscii c) :: headerNameGo (c == '-') cs

/-- `web.HeaderNameBytes`: canonical form of a header name. -/
def headerNameBytes (p : List Char) : String :=
  String.mk (headerNameGo true p)

/-! ## parseHeader (server/server.go) -/

def maxLineSize : Nat := 4096
def maxValueSize : Nat := 4096
def maxHeaderCount : Nat := 256

/-- Line-terminator removal in `parseHeader`: drop a final CRLF, or just
the final LF. -/
def stripEol (p : List Char) : List Char :=
  if p.length ≥ 2 ∧ p[p.length - 2]? = some '\r' then
    p.take (p.length - 2)
  else p.take (p.length - 1)

/-- `values[len(values)-1] = value`: replace the last value stored under
the key (continuation lines extend the previous header's last value). -/
def smUpdateLast : StringsMap → String → String → StringsMap
  | [], _, _ => []
  | (k, vs) :: rest, key, v =>
    if k = key then (k, vs.dropLast ++ [v]) :: rest
    else (k, vs) :: smUpdateLast rest key v

/-- The `parseHeader` read loop. The fuel argument makes the recursion
structural; every iteration consumes at least one byte of the stream, so
`stream length + 1` always suffices. A `none` from `readSlice` is the
code's I/O-error path, and the two `"twister: internal"` arms model
states the Go code cannot reach without panicking (a continuation key
always has at least one stored value). -/
def parseHeaderLoop :
    Nat → List Char → StringsMap → String → Nat → Except String StringsMap
  | 0, _, _, _, _ => .error "twister: out of fuel"
  | fuel + 1, s, header, lastKey, headerCount =>
    match readSlice '\n' s with
    | none => .error "read error"
    | some (p0, rest) =>
      match stripEol p0 with
      | [] => .ok header
      | c :: cs =>
        if (c :: cs).length > maxLineSize then .error "header line too long"
        else if IsSpaceByte c then
          if lastKey = "" then .error "header continuation before first header"
          else
            let pc := trimWSLeft (trimWSRight (c :: cs))
            if pc.length > 0 then
              match smFind header lastKey with
              | some vs =>
                match vs.getLast? with
                | some lastVal =>
                  let value := lastVal ++ " " ++ String.mk pc
                  if value.length > maxValueSize then
                    .error "header value too long"
                  else
                    parseHeaderLoop fuel rest (smUpdateLast header lastKey value)
                      lastKey headerCount
                | none => .error "twister: internal"
              | none => .error "twister: internal"
            else parseHeaderLoop fuel rest header lastKey headerCount
        else
          if headerCount + 1 > maxHeaderCount then .error "too many headers"
          else
            let i := skipBytes (c :: cs) IsTokenByte
            if i < 1 then .error "missing header key"
            else
              let key := headerNameBytes ((c :: cs).take i)
              match trimWSLeft ((c :: cs).drop i) with
              | ':' :: p2 =>
                let value := String.mk (trimWSRight (trimWSLeft p2))
                parseHeaderLoop fuel rest (smAppend header key value) key
                  (headerCount + 1)
              | _ => .error "header missing :"

/-- `parseHeader`: read header lines until the empty line. -/
def parseHeader (s : List Char) : Except String StringsMap :=
  parseHeaderLoop (s.length + 1) s [] "" 0

/-! ### Claim C5: canonicalization and case-insensitive accumulation -/

theorem headerNameGo_getElem (p : List Char) :
    ∀ (u : Bool) (i : Nat), (headerNameGo u p)[i]? =
      (p[i]?).map (fun c =>
        if (i = 0 ∧ u = true) ∨ (1 ≤ i ∧ p[i - 1]? = some '-') then upperAscii c
        else lowerAscii c) := by
  induction p with
  | nil => intro u i; simp [headerNameGo]
  | cons c cs ih =>
    intro u i
    cases i with
    | zero =>
      cases u <;> simp [headerNameGo]
    | succ j =>
      simp only [headerNameGo, List.getElem?_cons_succ]
      rw [ih (c == '-') j]
      cases hj : (cs[j]?) with
      | none => simp
      | some cj =>
        simp only [Option.map_some']
        have hcond : ((j = 0 ∧ (c == '-') = true) ∨ (1 ≤ j ∧ cs[j - 1]? = some '-')) ↔
            ((j + 1 = 0 ∧ u = true) ∨ (1 ≤ j + 1 ∧ (c :: cs)[j + 1 - 1]? = some '-')) := by
          cases j with
          | zero => simp
          | succ j' => simp
        exact congrArg some (if_congr hcond rfl rfl)

theorem token_not_space (c : Char) (h : IsTokenByte c = true) :
    IsSpaceByte c = false := by
  cases hs : IsSpaceByte c with
  | false => rfl
  | true =>
    exfalso
    have : ((c = ' ' ∨ c = '\t') ∨ c = '\r') ∨ c = '\n' := by
      simpa [IsSpaceByte] using hs
    rcases this with ((h1 | h1) | h1) | h1 <;> subst h1 <;>
      simp_all [IsTokenByte, isCtlChar, isSeparatorChar]

theorem token_ne_newline (c : Char) (h : IsTokenByte c = true) : c ≠ '\n' := by
  intro hc
  subst hc
  simp [IsTokenByte, isCtlChar] at h

theorem skipBytes_append (k : List Char) (d : Char) (rest : List Char)
    (hk : ∀ c ∈ k, IsTokenByte c = true) (hd : IsTokenByte d = false) :
    skipBytes (k ++ d :: rest) IsTokenByte = k.length := by
  induction k with
  | nil => simp [skipBytes, hd]
  | cons c cs ih =>
    have hc : IsTokenByte c = true := hk c (by simp)
    simp only [List.cons_append, skipBytes, hc, if_true, List.length_cons]
    simpa using ih (fun x hx => hk x (List.mem_cons_of_mem _ hx))

theorem stripEol_crlf (a : List Char) : stripEol (a ++ ['\r', '\n']) = a := by
  have hlen : (a ++ ['\r', '\n']).length = a.length + 2 := by simp
  have hget : (a ++ ['\r', '\n'])[(a ++ ['\r', '\n']).length - 2]? = some '\r' := by
    rw [hlen]
    simp only [Nat.add_sub_cancel]
    rw [List.getElem?_append_right (Nat.le_refl a.length)]
    simp
  rw [stripEol, if_pos ⟨by omega, hget⟩, hlen]
  simp only [Nat.add_sub_cancel]
  exact List.take_left a ['\r', '\n']

/-- One simple (non-continuation) header line `key: value CRLF` appends
the trimmed value under the canonical key and continues the loop. -/
theorem parseHeaderLoop_step (fuel : Nat) (k v tail : List Char)
    (header : StringsMap) (lastKey : String) (headerCount : Nat)
    (hk : k ≠ []) (hktok : ∀ c ∈ k, IsTokenByte c = true)
    (hv : '\n' ∉ v) (hvl : trimWSLeft v = v) (hvr : trimWSRight v = v)
    (hlen : k.length + 2 + v.length ≤ 4096)
    (hcount : headerCount + 1 ≤ 256) :
    parseHeaderLoop (fuel + 1) (k ++ ':' :: ' ' :: v ++ '\r' :: '\n' :: tail)
      header lastKey headerCount =
      parseHeaderLoop fuel tail
        (smAppend header (headerNameBytes k) (String.mk v))
        (headerNameBytes k) (headerCount + 1) := by
  obtain ⟨c, k', rfl⟩ : ∃ c k', k = c :: k' := by
    cases k with
    | nil => exact absurd rfl hk
    | cons c k' => exact ⟨c, k', rfl⟩
  have hshape : (c :: k') ++ ':' :: ' ' :: v ++ '\r' :: '\n' :: tail =
      ((c :: k') ++ ':' :: ' ' :: (v ++ ['\r'])) ++ '\n' :: tail := by
    simp
  have hnotin : '\n' ∉ (c :: k') ++ ':' :: ' ' :: (v ++ ['\r']) := by
    intro hmem
    rcases List.mem_append.mp hmem with hmem | hmem
    · exact token_ne_newline '\n' (hktok _ hmem) rfl
    · have : '\n' ∈ v := by simpa using hmem
      exact hv this
  have hread := readSlice_append '\n' ((c :: k') ++ ':' :: ' ' :: (v ++ ['\r']))
    tail hnotin
  have hshape2 : ((c :: k') ++ ':' :: ' ' :: (v ++ ['\r'])) ++ ['\n'] =
      ((c :: k') ++ ':' :: ' ' :: v) ++ ['\r', '\n'] := by
    simp
  have hc : IsTokenByte c = true := hktok c (by simp)
  have hsp : IsSpaceByte c = false := token_not_space c hc
  have hskip : skipBytes (c :: (k' ++ ':' :: ' ' :: v)) IsTokenByte =
      k'.length + 1 := by
    have h := skipBytes_append (c :: k') ':' (' ' :: v) hktok (by decide)
    simpa using h
  have htake : List.take (k'.length + 1) (c :: (k' ++ ':' :: ' ' :: v)) =
      c :: k' := by
    have h := List.take_left (c :: k') (':' :: (' ' :: v))
    simpa using h
  have hdrop : List.drop (k'.length + 1) (c :: (k' ++ ':' :: ' ' :: v)) =
      ':' :: ' ' :: v := by
    have h := List.drop_left (c :: k') (':' :: (' ' :: v))
    simpa using h
  have hlen2 : ¬ ((c :: (k' ++ ':' :: ' ' :: v)).length > maxLineSize) := by
    simp only [List.length_cons, List.length_append] at hlen ⊢
    simp only [maxLineSize]
    omega
  have hcnt : ¬ (headerCount + 1 > maxHeaderCount) := by
    simp only [maxHeaderCount]
    omega
  have hone : ¬ (k'.length + 1 < 1) := by omega
  have htl1 : trimWSLeft (':' :: ' ' :: v) = ':' :: ' ' :: v := by
    simp [trimWSLeft, IsSpaceByte]
  have htl2 : trimWSRight (trimWSLeft (' ' :: v)) = v := by
    rw [show trimWSLeft (' ' :: v) = trimWSLeft v from by
      simp [trimWSLeft, IsSpaceByte]]
    rw [hvl, hvr]
  rw [hshape, parseHeaderLoop]
  simp only [hread]
  rw [hshape2, stripEol_crlf]
  simp only [List.cons_append, hskip, htake, hdrop, htl1, htl2, hsp, hlen2,
    hcnt, hone, Bool.false_eq_true, if_false, if_true]

/-- The empty line terminates the header block. -/
theorem parseHeaderLoop_done (fuel : Nat) (tail : List Char)
    (header : StringsMap) (lastKey : String) (headerCount : Nat) :
    parseHeaderLoop (fuel + 1) ('\r' :: '\n' :: tail) header lastKey
      headerCount = .ok header := by
  have hread : readSlice '\n' ('\r' :: '\n' :: tail) = some (['\r', '\n'], tail) := by
    simp [readSlice]
  rw [parseHeaderLoop]
  simp only [hread]
  rw [show stripEol ['\r', '\n'] = [] from by decide]

/-- C5: `HeaderNameBytes` capitalizes the first letter of every
`'-'`-separated word and lowercases the rest (characterized per index),
and a parsed header block accumulates lines whose keys differ only in
case under the single canonical key with the values in arrival order. -/
theorem headerName_canonical_accumulation :
    (∀ (p : List Char) (i : Nat),
      ((headerNameBytes p).data)[i]? =
        (p[i]?).map (fun c =>
          if i = 0 ∨ p[i - 1]? = some '-' then upperAscii c else lowerAscii c)) ∧
    (∀ (k1 k2 v1 v2 : List Char),
      k1 ≠ [] → (∀ c ∈ k1, IsTokenByte c = true) →
      k2 ≠ [] → (∀ c ∈ k2, IsTokenByte c = true) →
      headerNameBytes k2 = headerNameBytes k1 →
      '\n' ∉ v1 → trimWSLeft v1 = v1 → trimWSRight v1 = v1 →
      '\n' ∉ v2 → trimWSLeft v2 = v2 → trimWSRight v2 = v2 →
      k1.length + 2 + v1.length ≤ 4096 → k2.length + 2 + v2.length ≤ 4096 →
      parseHeader (k1 ++ ':' :: ' ' :: v1 ++ '\r' :: '\n' ::
          (k2 ++ ':' :: ' ' :: v2 ++ '\r' :: '\n' :: ['\r', '\n'])) =
        .ok [(headerNameBytes k1, [String.mk v1, String.mk v2])]) := by
  constructor
  · intro p i
    rw [show (headerNameBytes p).data = headerNameGo true p from rfl]
    rw [headerNameGo_getElem p true i]
    cases hp : p[i]? with
    | none => simp
    | some c =>
      have hcond : ((i = 0 ∧ true = true) ∨ (1 ≤ i ∧ p[i - 1]? = some '-')) ↔
          (i = 0 ∨ p[i - 1]? = some '-') := by
        cases i with
        | zero => simp
        | succ j => simp
      exact congrArg some (if_congr hcond rfl rfl)
  · intro k1 k2 v1 v2 hk1 hk1t hk2 hk2t hcanon hv1 hv1l hv1r hv2 hv2l hv2r
      hlen1 hlen2
    rw [parseHeader]
    set s := k1 ++ ':' :: ' ' :: v1 ++ '\r' :: '\n' ::
      (k2 ++ ':' :: ' ' :: v2 ++ '\r' :: '\n' :: ['\r', '\n']) with hs
    have hslen : ∃ f, s.length + 1 = (f + 1) + 1 + 1 := by
      refine ⟨s.length - 2, ?_⟩
      have : 2 ≤ s.length := by
        rw [hs]
        simp
        omega
      omega
    obtain ⟨f, hf⟩ := hslen
    rw [hf]
    rw [parseHeaderLoop_step (f + 1 + 1) k1 v1 _ [] "" 0 hk1 hk1t hv1 hv1l hv1r
      hlen1 (by omega)]
    rw [parseHeaderLoop_step (f + 1) k2 v2 _ _ _ 1 hk2 hk2t hv2 hv2l hv2r
      hlen2 (by omega)]
    rw [hcanon]
    rw [parseHeaderLoop_done]
    rw [show smAppend ([] : StringsMap) (headerNameBytes k1) (String.mk v1) =
      [(headerNameBytes k1, [String.mk v1])] from rfl]
    simp [smAppend]

/-- Witness for C5: the spec's `CoOkie`/`Cookie` example, plus the
canonicalization of `content-TYPE` at index 0 and 8. -/
theorem headerName_canonical_accumulation_witness :
    parseHeader ("CoOkie: x\r\nCookie: y\r\n\r\n".data) =
      .ok [("Cookie", ["x", "y"])] ∧
    ((headerNameBytes "content-TYPE".data).data)[0]? = some 'C' ∧
    ((headerNameBytes "content-TYPE".data).data)[8]? = some 'T' := by
  refine ⟨?_, ?_, ?_⟩
  · have h := headerName_canonical_accumulation.2 "CoOkie".data "Cookie".data
      "x".data "y".data (by decide) (by decide) (by decide) (by decide)
      (by decide) (by decide) (by decide) (by decide) (by decide) (by decide)
      (by decide) (by decide) (by decide)
    have hs : "CoOkie: x\r\nCookie: y\r\n\r\n".data =
        "CoOkie".data ++ ':' :: ' ' :: "x".data ++ '\r' :: '\n' ::
          ("Cookie".data ++ ':' :: ' ' :: "y".data ++ '\r' :: '\n' ::
            ['\r', '\n']) := by decide
    rw [hs, h]
    rw [show headerNameBytes "CoOkie".data = "Cookie" from by decide]
  · rw [headerName_canonical_accumulation.1 "content-TYPE".data 0]
    decide
  · rw [headerName_canonical_accumulation.1 "content-TYPE".data 8]
    decide

/-! ## WebSocket key derivation (webSocketKey) and MD5 -/

/-- Big-endian 4-byte encoding (`binary.BigEndian.PutUint32`). -/
def be32 (x : Nat) : List Nat :=
  [x / 2 ^ 24 % 256, x / 2 ^ 16 % 256, x / 2 ^ 8 % 256, x % 256]

/-- One character of the `webSocketKey` scan loop: spaces bump `d`,
digits accumulate into `n` in 32-bit arithmetic (`var n uint32`). -/
def wsKeyStep (nd : Nat × Nat) (c : Char) : Nat × Nat :=
  if c = ' ' then (nd.1, nd.2 + 1)
  else if '0' ≤ c ∧ c ≤ '9' then
    ((nd.1 * 10 + (c.toNat - '0'.toNat)) % 2 ^ 32, nd.2)
  else nd

/-- The digit/space scan of `webSocketKey`. -/
def webSocketKeyNums (s : List Char) : Nat × Nat :=
  s.foldl wsKeyStep (0, 0)

/-- `webSocketKey`: derive the 4-byte key from the named header. -/
def webSocketKey (header : StringsMap) (name : String) : Except String (List Nat) :=
  match smGet header name with
  | none => .error "twister.websocket: missing key"
  | some s =>
    let nd := webSocketKeyNums s.data
    if nd.2 = 0 ∨ nd.1 % nd.2 ≠ 0 then .error "twister.websocket: bad key"
    else .ok (be32 (nd.1 / nd.2))

/-- The claim's digit accumulator, in unbounded arithmetic. -/
def claimKeyStep (a : Nat) (c : Char) : Nat :=
  if '0' ≤ c ∧ c ≤ '9' then a * 10 + (c.toNat - '0'.toNat) else a

/-- The claim's `n`: the (unbounded) number formed from the decimal digit
characters of the key header in order. -/
def claimKeyNat (s : List Char) : Nat :=
  s.foldl claimKeyStep 0

/-- The claim's `d`: the number of space characters in the key header. -/
def claimSpaceCount (s : List Char) : Nat :=
  s.countP (fun c => c == ' ')

/-! MD5 (RFC 1321), the hash used by `crypto/md5` in the handshake. -/

def md5K : List Nat :=
  [0xd76aa478, 0xe8c7b756, 0x242070db, 0xc1bdceee,
   0xf57c0faf, 0x4787c62a, 0xa8304613, 0xfd469501,
   0x698098d8, 0x8b44f7af, 0xffff5bb1, 0x895cd7be,
   0x6b901122, 0xfd987193, 0xa679438e, 0x49b40821,
   0xf61e2562, 0xc040b340, 0x265e5a51, 0xe9b6c7aa,
   0xd62f105d, 0x02441453, 0xd8a1e681, 0xe7d3fbc8,
   0x21e1cde6, 0xc33707d6, 0xf4d50d87, 0x455a14ed,
   0xa9e3e905, 0xfcefa3f8, 0x676f02d9, 0x8d2a4c8a,
   0xfffa3942, 0x8771f681, 0x6d9d6122, 0xfde5380c,
   0xa4beea44, 0x4bdecfa9, 0xf6bb4b60, 0xbebfbc70,
   0x289b7ec6, 0xeaa127fa, 0xd4ef3085, 0x04881d05,
   0xd9d4d039, 0xe6db99e5, 0x1fa27cf8, 0xc4ac5665,
   0xf4292244, 0x432aff97, 0xab9423a7, 0xfc93a039,
   0x655b59c3, 0x8f0ccc92, 0xffeff47d, 0x85845dd1,
   0x6fa87e4f, 0xfe2ce6e0, 0xa3014314, 0x4e0811a1,
   0xf7537e82, 0xbd3af235, 0x2ad7d2bb, 0xeb86d391]

def md5S : List Nat :=
  [7, 12, 17, 22, 7, 12, 17, 22, 7, 12, 17, 22, 7, 12, 17, 22,
   5, 9, 14, 20, 5, 9, 14, 20, 5, 9, 14, 20, 5, 9, 14, 20,
   4, 11, 16, 23, 4, 11, 16, 23, 4, 11, 16, 23, 4, 11, 16, 23,
   6, 10, 15, 21, 6, 10, 15, 21, 6, 10, 15, 21, 6, 10, 15, 21]

def rotl32 (x s : Nat) : Nat :=
  ((x <<< s) % 2 ^ 32) ||| (x >>> (32 - s))

def md5F (i b c d : Nat) : Nat :=
  if i < 16 then (b &&& c) ||| ((b ^^^ 0xffffffff) &&& d)
  else if i < 32 then (d &&& b) ||| ((d ^^^ 0xffffffff) &&& c)
  else if i < 48 then b ^^^ c ^^^ d
  else c ^^^ (b ||| (d ^^^ 0xffffffff))

def md5G (i : Nat) : Nat :=
  if i < 16 then i
  else if i < 32 then (5 * i + 1) % 16
  else if i < 48 then (3 * i + 5) % 16
  else (7 * i) % 16

def md5Round (M : List Nat) (st : Nat × Nat × Nat × Nat) (i : Nat) :
    Nat × Nat × Nat × Nat :=
  let a := st.1
  let b := st.2.1
  let c := st.2.2.1
  let d := st.2.2.2
  let f := (md5F i b c d + a + md5K.getD i 0 + M.getD (md5G i) 0) % 2 ^ 32
  (d, (b + rotl32 f (md5S.getD i 0)) % 2 ^ 32, b, c)

/-- Four little-endian bytes to one 32-bit word, for each block word. -/
def toWordsLE : List Nat → List Nat
  | b0 :: b1 :: b2 :: b3 :: rest =>
    (b0 + b1 * 2 ^ 8 + b2 * 2 ^ 16 + b3 * 2 ^ 24) :: toWordsLE rest
  | _ => []

def md5ProcessBlock (st : Nat × Nat × Nat × Nat) (M : List Nat) :
    Nat × Nat × Nat × Nat :=
  let r := (List.range 64).foldl (md5Round M) st
  ((st.1 + r.1) % 2 ^ 32, (st.2.1 + r.2.1) % 2 ^ 32,
    (st.2.2.1 + r.2.2.1) % 2 ^ 32, (st.2.2.2 + r.2.2.2) % 2 ^ 32)

def le64 (x : Nat) : List Nat :=
  [x % 256, x / 2 ^ 8 % 256, x / 2 ^ 16 % 256, x / 2 ^ 24 % 256,
   x / 2 ^ 32 % 256, x / 2 ^ 40 % 256, x / 2 ^ 48 % 256, x / 2 ^ 56 % 256]

/-- MD5 padding: 0x80, zeros to 56 mod 64, then the bit length in 8
little-endian bytes. -/
def md5Pad (m : List Nat) : List Nat :=
  let padLen := (56 + 64 - (m.length + 1) % 64) % 64
  m ++ [0x80] ++ List.replicate padLen 0 ++ le64 (m.length * 8)

def md5Blocks : Nat → (Nat × Nat × Nat × Nat) → List Nat → Nat × Nat × Nat × Nat
  | 0, st, _ => st
  | _ + 1, st, [] => st
  | fuel + 1, st, bytes =>
    md5Blocks fuel (md5ProcessBlock st (toWordsLE (bytes.take 64))) (bytes.drop 64)

def le32bytes (x : Nat) : List Nat :=
  [x % 256, x / 2 ^ 8 % 256, x / 2 ^ 16 % 256, x / 2 ^ 24 % 256]

/-- MD5 of a byte sequence (RFC 1321), 16 output bytes. -/
def md5 (m : List Nat) : List Nat :=
  let padded := md5Pad m
  let st := md5Blocks padded.length
    (0x67452301, 0xefcdab89, 0x98badcfe, 0x10325476) padded
  le32bytes st.1 ++ le32bytes st.2.1 ++ le32bytes st.2.2.1 ++ le32bytes st.2.2.2

/-- The `crypto/md5` hasher of `NewWebSocketConn`: `h.Write(key1)`,
`h.Write(key2)`, `h.Write(key3)`, `h.Sum()`. An incremental hash state is
the sequence of bytes written so far; `Sum` hashes it. -/
def md5HasherWrite (st : List Nat) (p : List Nat) : List Nat := st ++ p

def md5HasherSum (st : List Nat) : List Nat := md5 st

/-- The handshake digest computed in `NewWebSocketConn`. -/
def handshakeDigest (key1 key2 key3 : List Nat) : List Nat :=
  md5HasherSum (md5HasherWrite (md5HasherWrite (md5HasherWrite [] key1) key2) key3)

/-! ### Claim C6: WebSocket key derivation -/

theorem webSocketKeyNums_foldl (s : List Char) :
    ∀ (n0 d0 : Nat),
      s.foldl wsKeyStep (n0 % 2 ^ 32, d0) =
        ((s.foldl claimKeyStep n0) % 2 ^ 32,
          d0 + s.countP (fun c => c == ' ')) := by
  induction s with
  | nil => intro n0 d0; simp
  | cons c cs ih =>
    intro n0 d0
    by_cases hsp : c = ' '
    · subst hsp
      have h1 : wsKeyStep (n0 % 2 ^ 32, d0) ' ' = (n0 % 2 ^ 32, d0 + 1) := by
        simp [wsKeyStep]
      have h2 : claimKeyStep n0 ' ' = n0 := by
        simp [claimKeyStep]
      simp only [List.foldl_cons, List.countP_cons, h1, h2]
      rw [ih n0 (d0 + 1)]
      simp
      omega
    · by_cases hdig : '0' ≤ c ∧ c ≤ '9'
      · have h1 : wsKeyStep (n0 % 2 ^ 32, d0) c =
            ((n0 * 10 + (c.toNat - '0'.toNat)) % 2 ^ 32, d0) := by
          simp only [wsKeyStep, if_neg hsp, if_pos hdig, Prod.mk.injEq]
          exact ⟨by omega, trivial⟩
        have h2 : claimKeyStep n0 c = n0 * 10 + (c.toNat - '0'.toNat) := by
          simp [claimKeyStep, hdig]
        have hbeq : (c == ' ') = false := by simp [hsp]
        simp only [List.foldl_cons, List.countP_cons, h1, h2, hbeq]
        rw [ih (n0 * 10 + (c.toNat - '0'.toNat)) d0]
        simp
      · have h1 : wsKeyStep (n0 % 2 ^ 32, d0) c = (n0 % 2 ^ 32, d0) := by
          simp [wsKeyStep, hsp, hdig]
        have h2 : claimKeyStep n0 c = n0 := by
          simp [claimKeyStep, hdig]
        have hbeq : (c == ' ') = false := by simp [hsp]
        simp only [List.foldl_cons, List.countP_cons, h1, h2, hbeq]
        rw [ih n0 d0]
        simp

/-- C6 (amended): the key scan accumulates `n` in 32-bit arithmetic —
`n` equals the claim's digit number reduced mod 2^32 — and `d` is the
space count; derivation fails iff the header is absent, `d = 0`, or
`n mod d ≠ 0` with that 32-bit `n`, and otherwise yields the 4-byte
big-endian encoding of `n / d`; the handshake digest is the 16-byte MD5
of `key1 ∥ key2 ∥ key3`. -/
theorem webSocketKey_derivation :
    (∀ s : List Char,
      (webSocketKeyNums s).1 = claimKeyNat s % 2 ^ 32 ∧
      (webSocketKeyNums s).2 = claimSpaceCount s) ∧
    (∀ (header : StringsMap) (name : String),
      (smGet header name = none →
        webSocketKey header name = .error "twister.websocket: missing key") ∧
      (∀ v, smGet header name = some v →
        ((claimSpaceCount v.data = 0 ∨
            (claimKeyNat v.data % 2 ^ 32) % claimSpaceCount v.data ≠ 0) →
          webSocketKey header name = .error "twister.websocket: bad key") ∧
        (claimSpaceCount v.data ≠ 0 →
          (claimKeyNat v.data % 2 ^ 32) % claimSpaceCount v.data = 0 →
          webSocketKey header name =
            .ok (be32 ((claimKeyNat v.data % 2 ^ 32) / claimSpaceCount v.data))))) ∧
    (∀ k1 k2 k3 : List Nat,
      handshakeDigest k1 k2 k3 = md5 (k1 ++ k2 ++ k3) ∧
      (handshakeDigest k1 k2 k3).length = 16) := by
  have hnums : ∀ s : List Char,
      (webSocketKeyNums s).1 = claimKeyNat s % 2 ^ 32 ∧
      (webSocketKeyNums s).2 = claimSpaceCount s := by
    intro s
    have h := webSocketKeyNums_foldl s 0 0
    rw [show (0 : Nat) % 2 ^ 32 = 0 from rfl] at h
    rw [webSocketKeyNums, claimKeyNat, claimSpaceCount, h]
    exact ⟨rfl, by simp⟩
  refine ⟨hnums, ?_, ?_⟩
  · intro header name
    constructor
    · intro h
      rw [webSocketKey, h]
    · intro v hv
      obtain ⟨h1, h2⟩ := hnums v.data
      constructor
      · intro hbad
        simp only [webSocketKey, hv, h1, h2]
        rw [if_pos hbad]
      · intro hd hmod
        simp only [webSocketKey, hv, h1, h2]
        rw [if_neg (by push_neg; exact ⟨hd, hmod⟩)]
  · intro k1 k2 k3
    constructor
    · simp [handshakeDigest, md5HasherWrite, md5HasherSum]
    · simp [handshakeDigest, md5HasherWrite, md5HasherSum, md5, le32bytes]

/-- C6 counterexample to the claim as stated: for the key header
`"42 94 967 296"` the digit string reads 4294967296 = 2^32, whose
remainder mod the 3 spaces is 1, so the claim predicts failure; the code
accumulates in `uint32`, wraps to `n = 0`, and succeeds with key
`00 00 00 00`. -/
theorem webSocketKey_unbounded_counterexample :
    webSocketKey [("Sec-Websocket-Key1", ["42 94 967 296"])]
      "Sec-Websocket-Key1" = .ok [0, 0, 0, 0] ∧
    claimKeyNat "42 94 967 296".data = 2 ^ 32 ∧
    claimSpaceCount "42 94 967 296".data = 3 ∧
    claimKeyNat "42 94 967 296".data %
      claimSpaceCount "42 94 967 296".data ≠ 0 := by
  exact ⟨rfl, by decide, by decide, by decide⟩

set_option maxRecDepth 8000 in
/-- Witness for C6: the hixie-76 draft example handshake. -/
theorem webSocketKey_derivation_witness :
    webSocketKey [("Sec-Websocket-Key1", ["4 @1  46546xW%0l 1 5"])]
      "Sec-Websocket-Key1" = .ok [49, 110, 65, 19] ∧
    handshakeDigest [49, 110, 65, 19] [15, 126, 214, 60]
      (strBytes "^n:ds[4U") =
      md5 ([49, 110, 65, 19] ++ [15, 126, 214, 60] ++ strBytes "^n:ds[4U") ∧
    handshakeDigest [49, 110, 65, 19] [15, 126, 214, 60]
      (strBytes "^n:ds[4U") = strBytes "8jKS'y:G*Co,Wxa-" := by
  refine ⟨?_, (webSocketKey_derivation.2.2 _ _ _).1, rfl⟩
  have h := ((webSocketKey_derivation.2.1
    [("Sec-Websocket-Key1", ["4 @1  46546xW%0l 1 5"])]
    "Sec-Websocket-Key1").2 "4 @1  46546xW%0l 1 5" (by decide)).2
    (by decide) (by decide)
  rw [h]
  exact congrArg Except.ok (by decide)

/-! ## Router (web router: compilePattern, Register, find, ServeWeb) -/

/-- A capture group of a compiled route pattern: a default parameter
(`([^X/]+)` / `([^/]+)`) or a verbatim custom subpattern `(re)`. -/
inductive GroupSpec where
  | default (excl : Option Char)
  | custom (re : String)
  deriving DecidableEq, Repr

/-- One element of a compiled route pattern: a quoted literal character
or a capture group. -/
inductive RItem where
  | lit (c : Char)
  | group (g : GroupSpec)
  deriving DecidableEq, Repr

def isAlnumChar (c : Char) : Bool :=
  ('A' ≤ c && c ≤ 'Z') || ('a' ≤ c && c ≤ 'z') || ('0' ≤ c && c ≤ '9')

/-- Match of `parameterRegexp` = `<([A-Za-z0-9]+)(:[^>]*)?>` anchored at
the head of the list: the parameter name, the optional subpattern (with
its leading `':'` removed, as `pattern[a[4]+1:a[5]]` does), and the rest
of the pattern after the closing `'>'`. -/
def parseParamAt : List Char → Option (String × Option String × List Char)
  | '<' :: rest0 =>
    let name := rest0.takeWhile isAlnumChar
    if name.isEmpty then none
    else
      match rest0.dropWhile isAlnumChar with
      | '>' :: tail => some (String.mk name, none, tail)
      | ':' :: after2 =>
        let sub := after2.takeWhile (fun c => c ≠ '>')
        match after2.dropWhile (fun c => c ≠ '>') with
        | '>' :: tail => some (String.mk name, some (String.mk sub), tail)
        | _ => none
      | _ => none
  | _ => none

/-- Leftmost match of `parameterRegexp` (`FindStringSubmatchIndex`): the
literal prefix before the match plus the match's components. -/
def findParam : List Char → Option (List Char × String × Option String × List Char)
  | [] => none
  | c :: rest =>
    match parseParamAt (c :: rest) with
    | some (name, sub, tail) => some ([], name, sub, tail)
    | none =>
      match findParam rest with
      | some (pre, name, sub, tail) => some (c :: pre, name, sub, tail)
      | none => none

/-- The `compilePattern` loop: quote the literal prefix, emit a group for
each parameter (the default group excludes `'/'` and the literal
character following the `'>'` unless that is `'/'` or the pattern ends),
and continue on the rest. The fuel argument makes the recursion
structural; the pattern length always suffices. -/
def compileAux : Nat → List Char → List RItem × List String
  | 0, pattern => (pattern.map RItem.lit, [])
  | fuel + 1, pattern =>
    match findParam pattern with
    | none => (pattern.map RItem.lit, [])
    | some (pre, name, sub, rest) =>
      let g :=
        match sub with
        | some reStr => GroupSpec.custom reStr
        | none =>
          match rest with
          | [] => GroupSpec.default none
          | r :: _ => if r = '/' then GroupSpec.default none
                      else GroupSpec.default (some r)
      let t := compileAux fuel rest
      (pre.map RItem.lit ++ RItem.group g :: t.1, name :: t.2)

/-- A compiled pattern: the regexp items between `^` and `$`, plus the
flag for the trailing `?` that `compilePattern` appends when `addSlash`
is set (making the final literal `'/'` optional). -/
structure CompiledPattern where
  items : List RItem
  optSlash : Bool
  deriving DecidableEq, Repr

/-- `compilePattern(pattern, addSlash)`: the compiled matcher and the
parameter names in template order. -/
def compilePattern (pattern : String) (addSlash : Bool) :
    CompiledPattern × List String :=
  let t := compileAux pattern.data.length pattern.data
  (⟨t.1, addSlash⟩, t.2)

def groupMin : GroupSpec → Nat
  | .default _ => 1
  | .custom _ => 0

/-- Whether a group accepts a candidate capture. Custom subpatterns are
interpreted by the `custom` oracle (the Go `regexp` engine applied to the
verbatim subpattern); default parameters match one-or-more characters
excluding `'/'` and the excluded literal. -/
def groupAccepts (custom : String → List Char → Bool) :
    GroupSpec → List Char → Bool
  | .default excl, s =>
    !s.isEmpty && s.all (fun c =>
      c ≠ '/' && (match excl with | some e => decide (c ≠ e) | none => true))
  | .custom re, s => custom re s

/-- Candidate capture lengths, longest first (greedy, leftmost-first). -/
def descLens (n m : Nat) : List Nat :=
  ((List.range (n + 1)).reverse).filter (fun k => m ≤ k)

/-- Backtracking matcher for a compiled item sequence against an entire
path, returning the group captures in order (`FindStringSubmatch` minus
the whole-match element). -/
def matchItems (custom : String → List Char → Bool) :
    List RItem → List Char → Option (List (List Char))
  | [], s => if s.isEmpty then some [] else none
  | .lit c :: items, s =>
    match s with
    | [] => none
    | c' :: s' => if c' = c then matchItems custom items s' else none
  | .group g :: items, s =>
    (descLens s.length (groupMin g)).findSome? fun k =>
      if groupAccepts custom g (s.take k) then
        (matchItems custom items (s.drop k)).map (fun caps => s.take k :: caps)
      else none

/-- `r.regexp.FindStringSubmatch(path)`: the anchored match with the
optional trailing slash (`^items/?$`) handled greedily. -/
def routeMatch (custom : String → List Char → Bool) (cp : CompiledPattern)
    (s : List Char) : Option (List (List Char)) :=
  match matchItems custom cp.items s with
  | some caps => some caps
  | none =>
    if cp.optSlash then matchItems custom cp.items.dropLast s else none

/-- Go `http.URLUnescape` (standard library, external to this
repository), modelled from its documented behavior: `%XX` hex decoding,
`'+'` decodes to space, malformed escapes fail. -/
def dehexChar (c : Char) : Option Nat :=
  if '0' ≤ c ∧ c ≤ '9' then some (c.toNat - 48)
  else if 'a' ≤ c ∧ c ≤ 'f' then some (c.toNat - 87)
  else if 'A' ≤ c ∧ c ≤ 'F' then some (c.toNat - 55)
  else none

def urlUnescapeList : List Char → Option (List Char)
  | [] => some []
  | '%' :: a :: b :: rest =>
    match dehexChar a, dehexChar b with
    | some x, some y =>
      (urlUnescapeList rest).map (fun l => Char.ofNat (16 * x + y) :: l)
    | _, _ => none
  | '%' :: _ => none
  | '+' :: rest => (urlUnescapeList rest).map (fun l => ' ' :: l)
  | c :: rest => (urlUnescapeList rest).map (fun l => c :: l)

/-- `http.URLUnescape` applied to each captured value in order. -/
def decodeAll : List (List Char) → Option (List String)
  | [] => some []
  | v :: rest =>
    match urlUnescapeList v with
    | none => none
    | some d => (decodeAll rest).map (fun l => String.mk d :: l)

/-- One registered route: the `addSlash` flag, the compiled pattern, the
parameter names and the method-to-handler map. -/
structure Route (α : Type) where
  addSlash : Bool
  compiled : CompiledPattern
  names : List String
  handlers : List (String × α)

/-- Go map assignment `r.handlers[method] = handler`. -/
def handlersInsert {α : Type} :
    List (String × α) → String → α → List (String × α)
  | [], m, h => [(m, h)]
  | (m0, h0) :: rest, m, h =>
    if m0 = m then (m, h) :: rest else (m0, h0) :: handlersInsert rest m h

/-- Go map lookup `r.handlers[method]` (`nil` when absent). -/
def handlersFind {α : Type} : List (String × α) → String → Option α
  | [], _ => none
  | (m0, h0) :: rest, m => if m0 = m then some h0 else handlersFind rest m

/-- `Router.Register` for one pattern: `addSlash` is set iff the pattern
ends in `'/'`, the pattern is compiled with that flag, and the
`(method, handler)` pairs populate the handler map. (The Go code panics
at registration time on an empty pattern, a pattern not starting with
`'/'`, or a malformed pair list; routes here are the well-formed ones.) -/
def mkRoute {α : Type} (pattern : String) (handlers : List (String × α)) :
    Route α :=
  let addSlash := pattern.data.getLast? = some '/'
  let t := compilePattern pattern addSlash
  ⟨addSlash, t.1, t.2,
    handlers.foldl (fun hs mh => handlersInsert hs mh.1 mh.2) []⟩

/-- Result of `Router.find`: a handler with the extracted parameter names
and decoded values, the add-slash redirect handler, or a `routerError`
(404/405/400) that responds through the request's error path. -/
inductive FindResult (α : Type) where
  | found (h : α) (names : List String) (values : List String)
  | redirect
  | routerErr (status : Nat) (message : String)

/-- `Router.find`: scan the routes in registration order; the first route
whose compiled regexp accepts the path decides the outcome. (On an empty
path the Go code would panic indexing `path[len(path)-1]`; here the
trailing-slash test is `getLast?`.) -/
def find {α : Type} (custom : String → List Char → Bool) :
    List (Route α) → String → String → FindResult α
  | [], _, _ => .routerErr 404 "Not found."
  | r :: rest, path, method =>
    match routeMatch custom r.compiled path.data with
    | none => find custom rest path method
    | some values =>
      if r.addSlash ∧ path.data.getLast? ≠ some '/' then .redirect
      else
        match decodeAll values with
        | none => .routerErr 400 "Bad request."
        | some vs =>
          match handlersFind r.handlers method with
          | some h => .found h r.names vs
          | none =>
            match (if method = "HEAD" then handlersFind r.handlers "GET" else none) with
            | some h => .found h r.names vs
            | none =>
              match handlersFind r.handlers "*" with
              | some h => .found h r.names vs
              | none => .routerErr 405 "Method not supported."

/-- The URL built by the `addSlash` redirect handler: the path plus
`'/'`, preserving a nonempty raw query after `'?'`. -/
def addSlashURL (path rawQuery : String) : String :=
  let p := path ++ "/"
  if rawQuery.length > 0 then p ++ "?" ++ rawQuery else p

/-- What `Router.ServeWeb` does with the find result: dispatch the
handler with the path parameters merged into the request's `Param` map
(`Param.Set`, overriding same-named values), or respond with the
permanent add-slash redirect (`req.Redirect(path+"/"+query, true)`,
status 301), or respond with the router error status. -/
inductive ServeOutcome (α : Type) where
  | dispatched (h : α) (param : StringsMap)
  | moved (status : Nat) (location : String)
  | failed (status : Nat) (message : String)

def applyParams (param : StringsMap) (names values : List String) : StringsMap :=
  (names.zip values).foldl (fun m nv => smSet m nv.1 nv.2) param

def routerServe {α : Type} (custom : String → List Char → Bool)
    (routes : List (Route α)) (path rawQuery method : String)
    (param : StringsMap) : ServeOutcome α :=
  match find custom routes path method with
  | .found h names values => .dispatched h (applyParams param names values)
  | .redirect => .moved StatusMovedPermanently (addSlashURL path rawQuery)
  | .routerErr status msg => .failed status msg

/-! ### Claim C3: first-match routing, 405 and 404 -/

/-- C3: routes are scanned in registration order; the first route whose
matcher accepts the path fully determines the outcome (later routes are
never consulted); a matching route with no handler for the method, no
GET fallback for HEAD and no `*` handler yields 405; and if no route
matches, the result is 404. -/
theorem router_first_match {α : Type} (custom : String → List Char → Bool) :
    (∀ (pre post : List (Route α)) (r : Route α) (path method : String),
      (∀ r' ∈ pre, routeMatch custom r'.compiled path.data = none) →
      routeMatch custom r.compiled path.data ≠ none →
      find custom (pre ++ r :: post) path method = find custom [r] path method) ∧
    (∀ (routes : List (Route α)) (path method : String),
      (∀ r' ∈ routes, routeMatch custom r'.compiled path.data = none) →
      find custom routes path method = .routerErr 404 "Not found.") ∧
    (∀ (r : Route α) (rest : List (Route α)) (path method : String)
        (values : List (List Char)),
      routeMatch custom r.compiled path.data = some values →
      ¬ (r.addSlash ∧ path.data.getLast? ≠ some '/') →
      (∀ vs, decodeAll values = some vs →
        handlersFind r.handlers method = none →
        (method = "HEAD" → handlersFind r.handlers "GET" = none) →
        handlersFind r.handlers "*" = none →
        find custom (r :: rest) path method =
          .routerErr 405 "Method not supported.")) := by
  refine ⟨?_, ?_, ?_⟩
  · intro pre
    induction pre with
    | nil =>
      intro post r path method _ hr
      obtain ⟨values, hv⟩ : ∃ v, routeMatch custom r.compiled path.data = some v := by
        cases h : routeMatch custom r.compiled path.data with
        | none => exact absurd h hr
        | some v => exact ⟨v, rfl⟩
      show find custom (r :: post) path method = find custom [r] path method
      simp only [find, hv]
    | cons r0 pre' ih =>
      intro post r path method hpre hr
      have h0 : routeMatch custom r0.compiled path.data = none :=
        hpre r0 (by simp)
      show find custom (r0 :: (pre' ++ r :: post)) path method = _
      simp only [find, h0]
      exact ih post r path method (fun x hx => hpre x (by simp [hx])) hr
  · intro routes
    induction routes with
    | nil => intro path method _; rfl
    | cons r0 rest ih =>
      intro path method hall
      have h0 : routeMatch custom r0.compiled path.data = none :=
        hall r0 (by simp)
      simp only [find, h0]
      exact ih path method (fun x hx => hall x (by simp [hx]))
  · intro r rest path method values hrm hnoslash vs hvs hm hhead hstar
    simp only [find, hrm, if_neg hnoslash, hvs, hm, hstar]
    by_cases hme : method = "HEAD"
    · rw [if_pos hme, hhead hme]
    · rw [if_neg hme]

/-- Witness for C3: the spec's first-match example — `/a` registered for
GET first and for PUT later still yields 405 for a PUT to `/a`; an
unmatched path yields 404. -/
theorem router_first_match_witness :
    find (fun _ _ => false)
      [mkRoute "/a" [("GET", 1)], mkRoute "/a" [("PUT", 2)]] "/a" "PUT" =
      FindResult.routerErr 405 "Method not supported." ∧
    find (fun _ _ => false) [mkRoute "/a" [("GET", (1 : Nat))]] "/b" "GET" =
      FindResult.routerErr 404 "Not found." := by
  constructor
  · have h1 := (router_first_match (α := Nat) (fun _ _ => false)).1 []
      [mkRoute "/a" [("PUT", 2)]] (mkRoute "/a" [("GET", 1)]) "/a" "PUT"
      (by intro r' hr'; simp at hr') (by decide)
    have h2 := (router_first_match (α := Nat) (fun _ _ => false)).2.2
      (mkRoute "/a" [("GET", 1)]) [] "/a" "PUT" [] (by decide) (by decide)
      [] (by decide) (by decide) (by decide) (by decide)
    rw [show ([mkRoute "/a" [("GET", 1)], mkRoute "/a" [("PUT", 2)]] :
      List (Route Nat)) = [] ++ mkRoute "/a" [("GET", 1)] ::
        [mkRoute "/a" [("PUT", 2)]] from rfl, h1]
    exact h2
  · exact (router_first_match (α := Nat) (fun _ _ => false)).2.1
      [mkRoute "/a" [("GET", 1)]] "/b" "GET"
      (by intro r' hr'; simp at hr'; rw [hr']; decide)

/-! ### Claim C4: the optional trailing slash and the add-slash redirect -/

theorem findSome?_isSome_iff {α β : Type} (l : List α) (f : α → Option β) :
    (l.findSome? f).isSome ↔ ∃ a ∈ l, (f a).isSome := by
  induction l with
  | nil => simp [List.findSome?]
  | cons a l ih =>
    cases hf : f a with
    | some b => simp [List.findSome?_cons, hf]
    | none => simp [List.findSome?_cons, hf, ih]

theorem descLens_mem (n m k : Nat) : k ∈ descLens n m ↔ k ≤ n ∧ m ≤ k := by
  simp [descLens, Nat.lt_succ_iff, and_comm]

theorem matchItems_nil_isSome (custom : String → List Char → Bool)
    (s : List Char) (h : (matchItems custom [] s).isSome) : s = [] := by
  cases s with
  | nil => rfl
  | cons c s' => simp [matchItems] at h

/-- Extending the item sequence with a final literal and the subject with
that character preserves matchability. -/
theorem matchItems_append_lit (custom : String → List Char → Bool) (c : Char) :
    ∀ (A : List RItem) (s : List Char), (matchItems custom A s).isSome →
      (matchItems custom (A ++ [.lit c]) (s ++ [c])).isSome := by
  intro A
  induction A with
  | nil =>
    intro s h
    have hs : s = [] := matchItems_nil_isSome custom s h
    subst hs
    simp [matchItems]
  | cons it A' ih =>
    intro s h
    cases it with
    | lit c0 =>
      cases s with
      | nil => simp [matchItems] at h
      | cons c1 s' =>
        by_cases hc : c1 = c0
        · subst hc
          simp only [matchItems, if_pos rfl] at h
          simpa [matchItems] using ih s' h
        · simp [matchItems, hc] at h
    | group g =>
      simp only [matchItems] at h
      obtain ⟨k, hkmem, hk⟩ := (findSome?_isSome_iff _ _).mp h
      obtain ⟨hkn, hkm⟩ := (descLens_mem _ _ _).mp hkmem
      by_cases hacc : groupAccepts custom g (s.take k) = true
      · rw [if_pos hacc] at hk
        have hik : (matchItems custom A' (s.drop k)).isSome := by
          cases hmk : matchItems custom A' (s.drop k) with
          | none => rw [hmk] at hk; simp at hk
          | some _ => simp
        show (matchItems custom (RItem.group g :: (A' ++ [.lit c])) (s ++ [c])).isSome
        simp only [matchItems]
        apply (findSome?_isSome_iff _ _).mpr
        refine ⟨k, ?_, ?_⟩
        · rw [descLens_mem]
          simp only [List.length_append, List.length_cons, List.length_nil]
          omega
        · rw [List.take_append_of_le_length hkn,
            List.drop_append_of_le_length hkn, if_pos hacc]
          have := ih (s.drop k) hik
          cases hmk2 : matchItems custom (A' ++ [.lit c]) (s.drop k ++ [c]) with
          | none => rw [hmk2] at this; simp at this
          | some _ => simp
      · rw [if_neg hacc] at hk
        simp at hk

/-- A match of items ending in a literal forces the subject to end in
that character, with the prefix matched by the remaining items. -/
theorem matchItems_strip_lit (custom : String → List Char → Bool) (c : Char) :
    ∀ (A : List RItem) (t : List Char),
      (matchItems custom (A ++ [.lit c]) t).isSome →
      ∃ s, t = s ++ [c] ∧ (matchItems custom A s).isSome := by
  intro A
  induction A with
  | nil =>
    intro t h
    cases t with
    | nil => simp [matchItems] at h
    | cons c1 t' =>
      simp only [List.nil_append, matchItems] at h
      by_cases hc : c1 = c
      · subst hc
        rw [if_pos rfl] at h
        have ht : t' = [] := matchItems_nil_isSome custom t' h
        subst ht
        exact ⟨[], rfl, by simp [matchItems]⟩
      · rw [if_neg hc] at h
        simp at h
  | cons it A' ih =>
    intro t h
    cases it with
    | lit c0 =>
      cases t with
      | nil => simp [matchItems] at h
      | cons c1 t' =>
        simp only [List.cons_append, matchItems] at h
        by_cases hc : c1 = c0
        · rw [if_pos hc] at h
          obtain ⟨s'', hts, hm⟩ := ih t' h
          refine ⟨c1 :: s'', by simp [hts], ?_⟩
          simp only [matchItems, if_pos hc]
          exact hm
        · rw [if_neg hc] at h
          simp at h
    | group g =>
      simp only [List.cons_append, matchItems] at h
      obtain ⟨k, hkmem, hk⟩ := (findSome?_isSome_iff _ _).mp h
      obtain ⟨hkn, hkm⟩ := (descLens_mem _ _ _).mp hkmem
      by_cases hacc : groupAccepts custom g (t.take k) = true
      · rw [if_pos hacc] at hk
        have hik : (matchItems custom (A' ++ [.lit c]) (t.drop k)).isSome := by
          simpa [List.append_eq] using hk
        obtain ⟨s'', hts, hm⟩ := ih (t.drop k) hik
        have hlen : (t.take k).length = k := by
          simp only [List.length_take]
          omega
        refine ⟨t.take k ++ s'', ?_, ?_⟩
        · rw [List.append_assoc, ← hts]
          simp
        · simp only [matchItems]
          apply (findSome?_isSome_iff _ _).mpr
          refine ⟨k, ?_, ?_⟩
          · rw [descLens_mem]
            simp only [List.length_append, hlen]
            omega
          · have htk : (t.take k ++ s'').take k = t.take k := by
              rw [List.take_append_of_le_length (by omega), List.take_take]
              simp
            have hdk : (t.take k ++ s'').drop k = s'' := by
              rw [List.drop_append_of_le_length (by omega)]
              rw [show (t.take k).drop k = [] from by
                apply List.drop_eq_nil_of_le
                omega]
              simp
            rw [htk, hdk, if_pos hacc]
            cases hmk2 : matchItems custom A' s'' with
            | none => rw [hmk2] at hm; simp at hm
            | some _ => simp
      · rw [if_neg hacc] at hk
        simp at hk

theorem parseParamAt_decomp (l : List Char) (name : String)
    (sub : Option String) (tail : List Char)
    (h : parseParamAt l = some (name, sub, tail)) :
    ∃ mid, l = mid ++ tail ∧ mid.getLast? = some '>' := by
  unfold parseParamAt at h
  split at h
  next rest0 =>
    by_cases hempty : (rest0.takeWhile isAlnumChar).isEmpty
    · rw [if_pos hempty] at h
      simp at h
    · rw [if_neg hempty] at h
      split at h
      next tail0 heq =>
        simp only [Option.some.injEq, Prod.mk.injEq] at h
        obtain ⟨-, -, rfl⟩ := h
        refine ⟨'<' :: (rest0.takeWhile isAlnumChar ++ ['>']), ?_, ?_⟩
        · have hsplit := List.takeWhile_append_dropWhile (p := isAlnumChar)
            (l := rest0)
          conv_lhs => rw [← hsplit]
          rw [heq]
          simp
        · rw [show ('<' :: (rest0.takeWhile isAlnumChar ++ ['>'])) =
            ('<' :: rest0.takeWhile isAlnumChar) ++ ['>'] from by simp]
          exact List.getLast?_concat _
      next after2 heq =>
        split at h
        next tail0 heq2 =>
          simp only [Option.some.injEq, Prod.mk.injEq] at h
          obtain ⟨-, -, rfl⟩ := h
          refine ⟨'<' :: (rest0.takeWhile isAlnumChar ++ ':' ::
            (after2.takeWhile (fun c => c ≠ '>') ++ ['>'])), ?_, ?_⟩
          · have hsplit := List.takeWhile_append_dropWhile (p := isAlnumChar)
              (l := rest0)
            conv_lhs => rw [← hsplit]
            rw [heq]
            have hsplit2 := List.takeWhile_append_dropWhile
              (p := fun c => c ≠ '>') (l := after2)
            conv_lhs => rw [← hsplit2]
            rw [heq2]
            simp
          · rw [show ('<' :: (rest0.takeWhile isAlnumChar ++ ':' ::
              (after2.takeWhile (fun c => c ≠ '>') ++ ['>']))) =
              ('<' :: rest0.takeWhile isAlnumChar ++ ':' ::
                after2.takeWhile (fun c => c ≠ '>')) ++ ['>'] from by simp]
            exact List.getLast?_concat _
        next => simp at h
      next => simp at h
  next => simp at h

theorem findParam_decomp :
    ∀ (l pre : List Char) (name : String) (sub : Option String)
      (rest : List Char),
      findParam l = some (pre, name, sub, rest) →
      ∃ mid, l = pre ++ mid ++ rest ∧ mid.getLast? = some '>' := by
  intro l
  induction l with
  | nil => intro pre name sub rest h; simp [findParam] at h
  | cons c tail ih =>
    intro pre name sub rest h
    rw [findParam] at h
    cases hp : parseParamAt (c :: tail) with
    | some t3 =>
      obtain ⟨name0, sub0, tail0⟩ := t3
      rw [hp] at h
      simp only [Option.some.injEq, Prod.mk.injEq] at h
      obtain ⟨rfl, rfl, rfl, rfl⟩ := h
      obtain ⟨mid, hmid, hlast⟩ := parseParamAt_decomp (c :: tail) name0 sub0 tail0 hp
      exact ⟨mid, by simpa using hmid, hlast⟩
    | none =>
      rw [hp] at h
      cases hf : findParam tail with
      | none => rw [hf] at h; simp at h
      | some q =>
        obtain ⟨pre0, name0, sub0, rest0⟩ := q
        rw [hf] at h
        simp only [Option.some.injEq, Prod.mk.injEq] at h
        obtain ⟨rfl, rfl, rfl, rfl⟩ := h
        obtain ⟨mid, hmid, hlast⟩ := ih pre0 name0 sub0 rest0 hf
        exact ⟨mid, by simp [hmid], hlast⟩

theorem map_lit_getLast? :
    ∀ (p : List Char), (p.map RItem.lit).getLast? = p.getLast?.map RItem.lit
  | [] => rfl
  | [_] => rfl
  | c :: c2 :: p => by
    rw [List.map_cons, List.map_cons, List.getLast?_cons_cons,
      List.getLast?_cons_cons, ← List.map_cons]
    exact map_lit_getLast? (c2 :: p)

/-- A pattern ending in `'/'` compiles to an item list ending in the
literal item `'/'` (the parameter regexp never matches a trailing
`'/'`, so the final character always survives as a literal). -/
theorem compileAux_last :
    ∀ (fuel : Nat) (p : List Char), p.getLast? = some '/' →
      (compileAux fuel p).1.getLast? = some (.lit '/') := by
  intro fuel
  induction fuel with
  | zero =>
    intro p hp
    show (p.map RItem.lit).getLast? = _
    rw [map_lit_getLast?, hp]
    rfl
  | succ fuel ih =>
    intro p hp
    rw [compileAux]
    cases hf : findParam p with
    | none =>
      show (p.map RItem.lit).getLast? = _
      rw [map_lit_getLast?, hp]
      rfl
    | some q =>
      obtain ⟨pre, name, sub, rest⟩ := q
      obtain ⟨mid, hdecomp, hmidlast⟩ := findParam_decomp p pre name sub rest hf
      have hmid_ne : mid ≠ [] := by
        intro hm
        rw [hm] at hmidlast
        simp at hmidlast
      have hrest_last : rest.getLast? = some '/' := by
        rw [hdecomp] at hp
        cases rest with
        | nil =>
          rw [List.append_nil,
            List.getLast?_append_of_ne_nil pre hmid_ne, hmidlast] at hp
          simp at hp
        | cons r0 rest' =>
          rw [List.getLast?_append_of_ne_nil _ (by simp)] at hp
          exact hp
      have hsub := ih rest hrest_last
      show (pre.map RItem.lit ++ RItem.group _ :: (compileAux fuel rest).1).getLast? = _
      rw [List.getLast?_append_cons]
      cases hc : (compileAux fuel rest).1 with
      | nil => rw [hc] at hsub; simp at hsub
      | cons x xs =>
        rw [List.getLast?_cons_cons, ← hc]
        exact hsub

/-- C4: for a route whose pattern ends in `'/'`, the compiled matcher
makes the trailing slash optional — any path accepted by the compiled
items minus the final slash is accepted both without and with a trailing
`'/'`; when such a route is the first match and the request path does not
end in `'/'`, the router responds with a permanent redirect (301) to the
path with `'/'` appended, preserving a raw query string after `'?'`, and
dispatches no handler; when the path does end in `'/'`, the method's
handler is dispatched with the decoded parameter values merged into the
request parameters. -/
theorem route_trailing_slash {α : Type} (custom : String → List Char → Bool)
    (pattern : String) (handlers : List (String × α))
    (hsl : pattern.data.getLast? = some '/') :
    (∀ s : List Char,
      (matchItems custom
        (mkRoute pattern handlers).compiled.items.dropLast s).isSome →
      routeMatch custom (mkRoute pattern handlers).compiled s ≠ none ∧
      routeMatch custom (mkRoute pattern handlers).compiled (s ++ ['/']) ≠ none) ∧
    (∀ (rest : List (Route α)) (path rawQuery method : String)
        (param : StringsMap) (values : List (List Char)),
      routeMatch custom (mkRoute pattern handlers).compiled path.data =
        some values →
      path.data.getLast? ≠ some '/' →
      routerServe custom (mkRoute pattern handlers :: rest) path rawQuery
          method param =
        .moved StatusMovedPermanently (addSlashURL path rawQuery) ∧
      addSlashURL path rawQuery =
        path ++ "/" ++ (if rawQuery.length > 0 then "?" ++ rawQuery else "")) ∧
    (∀ (rest : List (Route α)) (path rawQuery method : String)
        (param : StringsMap) (values : List (List Char)) (vs : List String)
        (h : α),
      routeMatch custom (mkRoute pattern handlers).compiled path.data =
        some values →
      path.data.getLast? = some '/' →
      decodeAll values = some vs →
      handlersFind (mkRoute pattern handlers).handlers method = some h →
      routerServe custom (mkRoute pattern handlers :: rest) path rawQuery
          method param =
        .dispatched h (applyParams param (mkRoute pattern handlers).names vs)) := by
  have haddSlash : (mkRoute pattern handlers).addSlash = true := by
    simp [mkRoute, hsl]
  have hopt : (mkRoute pattern handlers).compiled.optSlash = true := by
    simp [mkRoute, compilePattern, hsl]
  have hlast : (mkRoute pattern handlers).compiled.items.getLast? =
      some (.lit '/') :=
    compileAux_last _ _ hsl
  have hne : (mkRoute pattern handlers).compiled.items ≠ [] := by
    intro h0
    rw [h0] at hlast
    simp at hlast
  have hsplit : (mkRoute pattern handlers).compiled.items =
      (mkRoute pattern handlers).compiled.items.dropLast ++ [.lit '/'] := by
    have h2 := List.getLast?_eq_getLast_of_ne_nil hne
    rw [h2] at hlast
    have h3 : (mkRoute pattern handlers).compiled.items.getLast hne =
        .lit '/' := by injection hlast
    conv_lhs => rw [← List.dropLast_append_getLast hne, h3]
  refine ⟨?_, ?_, ?_⟩
  · intro s hmatch
    constructor
    · cases hfull : matchItems custom
          (mkRoute pattern handlers).compiled.items s with
      | some caps => simp [routeMatch, hfull]
      | none =>
        have heq : routeMatch custom (mkRoute pattern handlers).compiled s =
            matchItems custom
              (mkRoute pattern handlers).compiled.items.dropLast s := by
          simp [routeMatch, hfull, hopt]
        rw [heq]
        intro h0
        rw [h0] at hmatch
        simp at hmatch
    · have hfull2 : (matchItems custom
          (mkRoute pattern handlers).compiled.items (s ++ ['/'])).isSome := by
        rw [hsplit]
        exact matchItems_append_lit custom '/' _ s hmatch
      cases hfull : matchItems custom
          (mkRoute pattern handlers).compiled.items (s ++ ['/']) with
      | none => rw [hfull] at hfull2; simp at hfull2
      | some caps => simp [routeMatch, hfull]
  · intro rest path rawQuery method param values hrm hnos
    have hpos : (mkRoute pattern handlers).addSlash ∧
        path.data.getLast? ≠ some '/' := ⟨haddSlash, hnos⟩
    constructor
    · simp only [routerServe, find, hrm, if_pos hpos]
    · simp only [addSlashURL]
      split_ifs
      · rw [String.append_assoc]
      · rw [String.append_empty]
  · intro rest path rawQuery method param values vs h hrm hslash hdec hh
    have hcond : ¬ ((mkRoute pattern handlers).addSlash ∧
        path.data.getLast? ≠ some '/') := by
      intro hc
      exact hc.2 hslash
    simp only [routerServe, find, hrm, if_neg hcond, hdec, hh]

/-- Witness for C4: the spec's example pattern `/a/<x>/` — requesting
`/a/foo?q=1` yields a permanent redirect (301) to `/a/foo/?q=1`, while
`/a/foo/` dispatches the GET handler with parameter `x = "foo"`; the
compiled matcher also accepts `/a/foo` without the trailing slash. -/
theorem route_trailing_slash_witness :
    routerServe (fun _ _ => false) [mkRoute "/a/<x>/" [("GET", (7 : Nat))]]
        "/a/foo" "q=1" "GET" [] =
      ServeOutcome.moved 301 "/a/foo/?q=1" ∧
    routerServe (fun _ _ => false) [mkRoute "/a/<x>/" [("GET", (7 : Nat))]]
        "/a/foo/" "q=1" "GET" [] =
      ServeOutcome.dispatched 7 [("x", ["foo"])] ∧
    routeMatch (fun _ _ => false)
      (mkRoute "/a/<x>/" [("GET", (7 : Nat))]).compiled "/a/foo".data ≠ none := by
  have ht := route_trailing_slash (fun _ _ => false) "/a/<x>/"
    [("GET", (7 : Nat))] (by decide)
  refine ⟨?_, ?_, ?_⟩
  · have h2 := ht.2.1 [] "/a/foo" "q=1" "GET" [] ["foo".data]
      (by decide) (by decide)
    rw [h2.1, show addSlashURL "/a/foo" "q=1" = "/a/foo/?q=1" from by decide]
    rfl
  · have h3 := ht.2.2 [] "/a/foo/" "q=1" "GET" [] ["foo".data] ["foo"] 7
      (by decide) (by decide) (by decide) (by decide)
    rw [h3, show applyParams []
      (mkRoute "/a/<x>/" [("GET", (7 : Nat))]).names ["foo"] =
        [("x", ["foo"])] from by decide]
  · exact (ht.1 "/a/foo".data (by decide)).1
